import Mathlib

/-!
# Blood on the Clocktower — Official Data Sync: verification development

This file embeds the incremental-sync / manifest subsystem of the repository
(`src/utils/manifest_utils.py`, `src/scrapers/writers.py`,
`src/transformers/reminder_fetcher.py`, `src/transformers/flavor_fetcher.py`,
`src/scrapers/extractors.py`, `src/utils/http_client.py`) as executable Lean
definitions, and proves or refutes the specification claims about it.

Character records are Python dicts loaded from / dumped to JSON, modelled as
insertion-ordered association lists of `String × Json` with unique keys.
-/

namespace BotcSync

/-- JSON value, as produced and consumed by Python's `json` module in this
repository. Numbers in the dataset are integers. -/
inductive Json where
  | null : Json
  | bool : Bool → Json
  | num : Int → Json
  | str : String → Json
  | arr : List Json → Json
  | obj : List (String × Json) → Json
deriving Repr

mutual

/-- Decidable equality of JSON values (not derivable for nested inductives). -/
def decEqJson : (a b : Json) → Decidable (a = b)
  | .null, .null => isTrue rfl
  | .bool a, .bool b =>
      if h : a = b then isTrue (by rw [h]) else isFalse (by simp [h])
  | .num a, .num b =>
      if h : a = b then isTrue (by rw [h]) else isFalse (by simp [h])
  | .str a, .str b =>
      if h : a = b then isTrue (by rw [h]) else isFalse (by simp [h])
  | .arr xs, .arr ys =>
      match decEqJsonList xs ys with
      | isTrue h => isTrue (by rw [h])
      | isFalse h => isFalse (by simp [h])
  | .obj xs, .obj ys =>
      match decEqJsonObj xs ys with
      | isTrue h => isTrue (by rw [h])
      | isFalse h => isFalse (by simp [h])
  | .null, .bool _ | .null, .num _ | .null, .str _ | .null, .arr _ | .null, .obj _
  | .bool _, .null | .bool _, .num _ | .bool _, .str _ | .bool _, .arr _ | .bool _, .obj _
  | .num _, .null | .num _, .bool _ | .num _, .str _ | .num _, .arr _ | .num _, .obj _
  | .str _, .null | .str _, .bool _ | .str _, .num _ | .str _, .arr _ | .str _, .obj _
  | .arr _, .null | .arr _, .bool _ | .arr _, .num _ | .arr _, .str _ | .arr _, .obj _
  | .obj _, .null | .obj _, .bool _ | .obj _, .num _ | .obj _, .str _ | .obj _, .arr _ =>
      isFalse (by simp)

/-- Decidable equality of JSON arrays. -/
def decEqJsonList : (a b : List Json) → Decidable (a = b)
  | [], [] => isTrue rfl
  | [], _ :: _ => isFalse (by simp)
  | _ :: _, [] => isFalse (by simp)
  | x :: xs, y :: ys =>
      match decEqJson x y, decEqJsonList xs ys with
      | isTrue h1, isTrue h2 => isTrue (by rw [h1, h2])
      | isFalse h1, _ => isFalse (by simp [h1])
      | _, isFalse h2 => isFalse (by simp [h2])

/-- Decidable equality of JSON object field lists. -/
def decEqJsonObj : (a b : List (String × Json)) → Decidable (a = b)
  | [], [] => isTrue rfl
  | [], _ :: _ => isFalse (by simp)
  | _ :: _, [] => isFalse (by simp)
  | (k, v) :: xs, (k', v') :: ys =>
      match String.decEq k k', decEqJson v v', decEqJsonObj xs ys with
      | isTrue h0, isTrue h1, isTrue h2 => isTrue (by rw [h0, h1, h2])
      | isFalse h0, _, _ => isFalse (by simp [h0])
      | _, isFalse h1, _ => isFalse (by simp [h1])
      | _, _, isFalse h2 => isFalse (by simp [h2])

end

instance : DecidableEq Json := decEqJson

/-- A Python dict with string keys (a JSON object), in insertion order. -/
abbrev Record := List (String × Json)

/-- `d[k]` / `d.get(k)`: first binding of `k`, as Python dicts have unique keys. -/
def rget (r : Record) (k : String) : Option Json :=
  match r with
  | [] => none
  | (k', v) :: rest => if k' = k then some v else rget rest k

/-- `d[k] = v`: replace the value in place if the key exists (Python dicts keep
the original insertion position), otherwise append the binding. -/
def rset (r : Record) (k : String) (v : Json) : Record :=
  match r with
  | [] => [(k, v)]
  | (k', v') :: rest => if k' = k then (k, v) :: rest else (k', v') :: rset rest k v

/-- Python truthiness of a JSON value (`if char.get("flavor"):` etc.). -/
def isTruthy : Json → Bool
  | .null => false
  | .bool b => b
  | .num n => n ≠ 0
  | .str s => s ≠ ""
  | .arr xs => !xs.isEmpty
  | .obj fs => !fs.isEmpty

/-- Truthiness of `d.get(k, default_falsy)`: missing keys are falsy. -/
def truthy (r : Record) (k : String) : Bool :=
  match rget r k with
  | some j => isTruthy j
  | none => false

/-- `d.get(k, "")` for string-valued fields (`ability`, `name`, `flavor`, …). -/
def getStr (r : Record) (k : String) : String :=
  match rget r k with
  | some (.str s) => s
  | _ => ""

/-- `d.get(k, [])` for array-valued fields (`reminders`, `jinxes`, …); these
keys always hold JSON arrays in this dataset. -/
def getArr (r : Record) (k : String) : List Json :=
  match rget r k with
  | some (.arr xs) => xs
  | _ => []

/-! ## JSON serialization (Python `json.dumps`) -/

/-- Hexadecimal digit character (lowercase), as Python produces. -/
def hexDigit (n : Nat) : Char :=
  if n < 10 then Char.ofNat (48 + n) else Char.ofNat (87 + n)

/-- Ordering of Python strings: lexicographic by code point. -/
def charListLe : List Char → List Char → Bool
  | [], _ => true
  | _ :: _, [] => false
  | a :: as, b :: bs =>
      if a.toNat < b.toNat then true
      else if b.toNat < a.toNat then false
      else charListLe as bs

/-- String comparison used by `sort_keys=True` and `sorted()`. -/
def strLe (a b : String) : Bool := charListLe a.data b.data

/-- Characterwise prefix test. -/
def listIsPrefixOf : List Char → List Char → Bool
  | [], _ => true
  | _ :: _, [] => false
  | a :: as, b :: bs => a = b && listIsPrefixOf as bs

/-- Characterwise infix test. -/
def listIsInfixOf (n : List Char) : List Char → Bool
  | [] => listIsPrefixOf n []
  | b :: bs => listIsPrefixOf n (b :: bs) || listIsInfixOf n bs

/-- Python `needle in haystack` on strings. -/
def strContains (hay needle : String) : Bool := listIsInfixOf needle.data hay.data

/-- Python `s.startswith(p)` (`String.startsWith` does not reduce in the
kernel, so the byte-for-byte equivalent is spelled out over the character
lists). -/
def strStartsWith (s p : String) : Bool := listIsPrefixOf p.data s.data

/-- Stable insertion into a key-sorted field list. -/
def insertByKey (x : String × Json) : List (String × Json) → List (String × Json)
  | [] => [x]
  | y :: ys => if strLe y.1 x.1 then y :: insertByKey x ys else x :: y :: ys

/-- Sort object fields by key (Python `sorted`, stable; keys are unique). -/
def sortFields (fs : List (String × Json)) : List (String × Json) :=
  fs.foldl (fun acc kv => insertByKey kv acc) []

mutual

/-- Recursively sort every object's fields by key, as `json.dumps(...,
sort_keys=True)` does while serializing. -/
def sortJson : Json → Json
  | .null => .null
  | .bool b => .bool b
  | .num n => .num n
  | .str s => .str s
  | .arr xs => .arr (sortJsonList xs)
  | .obj fs => .obj (sortFields (sortJsonObj fs))

/-- Elementwise `sortJson` over a JSON array. -/
def sortJsonList : List Json → List Json
  | [] => []
  | x :: xs => sortJson x :: sortJsonList xs

/-- Elementwise `sortJson` over object fields. -/
def sortJsonObj : List (String × Json) → List (String × Json)
  | [] => []
  | (k, v) :: fs => (k, sortJson v) :: sortJsonObj fs

end

/-- JSON string escaping with `ensure_ascii=False`: only `"`, `\` and control
characters are escaped; non-ASCII characters pass through. -/
def escapeChar (c : Char) : List Char :=
  if c = Char.ofNat 34 then [Char.ofNat 92, Char.ofNat 34]
  else if c = Char.ofNat 92 then [Char.ofNat 92, Char.ofNat 92]
  else if c.toNat = 10 then [Char.ofNat 92, 'n']
  else if c.toNat = 9 then [Char.ofNat 92, 't']
  else if c.toNat = 13 then [Char.ofNat 92, 'r']
  else if c.toNat = 8 then [Char.ofNat 92, 'b']
  else if c.toNat = 12 then [Char.ofNat 92, 'f']
  else if c.toNat < 32 then
    [Char.ofNat 92, 'u', '0', '0', hexDigit (c.toNat / 16), hexDigit (c.toNat % 16)]
  else [c]

/-- Serialize a string literal as `json.dumps` does. -/
def dumpStr (s : String) : String :=
  "\"" ++ String.mk (s.data.flatMap escapeChar) ++ "\""

mutual

/-- Compact serialization of an (already key-sorted) JSON value with Python's
default separators `(", ", ": ")` and `ensure_ascii=False`. -/
def dumpJson : Json → String
  | .null => "null"
  | .bool b => if b then "true" else "false"
  | .num n => toString n
  | .str s => dumpStr s
  | .arr xs => "[" ++ dumpJsonList xs ++ "]"
  | .obj fs => "\x7b" ++ dumpJsonObj fs ++ "\x7d"

/-- Comma-separated serialization of array elements. -/
def dumpJsonList : List Json → String
  | [] => ""
  | [x] => dumpJson x
  | x :: xs => dumpJson x ++ ", " ++ dumpJsonList xs

/-- Comma-separated serialization of object fields. -/
def dumpJsonObj : List (String × Json) → String
  | [] => ""
  | [(k, v)] => dumpStr k ++ ": " ++ dumpJson v
  | (k, v) :: fs => dumpStr k ++ ": " ++ dumpJson v ++ ", " ++ dumpJsonObj fs

end

/-- `json.dumps(value, sort_keys=True, ensure_ascii=False)`. -/
def dumps (j : Json) : String := dumpJson (sortJson j)

/-! ## SHA-256 (`hashlib.sha256(data).hexdigest()`) -/

/-- Modulus of 32-bit word arithmetic. -/
def w32 : Nat := 4294967296

/-- Rotate a 32-bit word right by `n`. -/
def rotr (n x : Nat) : Nat := ((x >>> n) ||| (x <<< (32 - n))) % w32

/-- SHA-256 `Ch` function. -/
def shaCh (x y z : Nat) : Nat := (x &&& y) ^^^ ((x ^^^ 4294967295) &&& z)

/-- SHA-256 `Maj` function. -/
def shaMaj (x y z : Nat) : Nat := (x &&& y) ^^^ (x &&& z) ^^^ (y &&& z)

/-- SHA-256 big sigma 0. -/
def sigmaBig0 (x : Nat) : Nat := rotr 2 x ^^^ rotr 13 x ^^^ rotr 22 x

/-- SHA-256 big sigma 1. -/
def sigmaBig1 (x : Nat) : Nat := rotr 6 x ^^^ rotr 11 x ^^^ rotr 25 x

/-- SHA-256 small sigma 0. -/
def sigmaSmall0 (x : Nat) : Nat := rotr 7 x ^^^ rotr 18 x ^^^ (x >>> 3)

/-- SHA-256 small sigma 1. -/
def sigmaSmall1 (x : Nat) : Nat := rotr 17 x ^^^ rotr 19 x ^^^ (x >>> 10)

/-- SHA-256 round constants (FIPS 180-4), as decimal literals. -/
def shaK : List Nat :=
  [1116352408, 1899447441, 3049323471, 3921009573, 961987163,
   1508970993, 2453635748, 2870763221, 3624381080, 310598401,
   607225278, 1426881987, 1925078388, 2162078206, 2614888103,
   3248222580, 3835390401, 4022224774, 264347078, 604807628,
   770255983, 1249150122, 1555081692, 1996064986, 2554220882,
   2821834349, 2952996808, 3210313671, 3336571891, 3584528711,
   113926993, 338241895, 666307205, 773529912, 1294757372,
   1396182291, 1695183700, 1986661051, 2177026350, 2456956037,
   2730485921, 2820302411, 3259730800, 3345764771, 3516065817,
   3600352804, 4094571909, 275423344, 430227734, 506948616,
   659060556, 883997877, 958139571, 1322822218, 1537002063,
   1747873779, 1955562222, 2024104815, 2227730452, 2361852424,
   2428436474, 2756734187, 3204031479, 3329325298]

/-- State of the eight SHA-256 working variables / hash words. -/
structure Hash8 where
  a : Nat
  b : Nat
  c : Nat
  d : Nat
  e : Nat
  f : Nat
  g : Nat
  h : Nat
deriving Repr, DecidableEq

/-- SHA-256 initial hash value, as decimal literals. -/
def initH : Hash8 :=
  ⟨1779033703, 3144134277, 1013904242, 2773480762, 1359893119, 2600822924, 528734635, 1541459225⟩

/-- UTF-8 encoding of one character (`str.encode()`). -/
def charUtf8 (c : Char) : List Nat :=
  let n := c.toNat
  if n < 128 then [n]
  else if n < 2048 then [192 + (n >>> 6), 128 + (n &&& 63)]
  else if n < 65536 then [224 + (n >>> 12), 128 + ((n >>> 6) &&& 63), 128 + (n &&& 63)]
  else [240 + (n >>> 18), 128 + ((n >>> 12) &&& 63), 128 + ((n >>> 6) &&& 63), 128 + (n &&& 63)]

/-- UTF-8 bytes of a string (`s.encode()`). -/
def utf8Bytes (s : String) : List Nat := s.data.flatMap charUtf8

/-- Big-endian 8-byte encoding of a 64-bit length. -/
def be8 (n : Nat) : List Nat :=
  [(n >>> 56) % 256, (n >>> 48) % 256, (n >>> 40) % 256, (n >>> 32) % 256,
   (n >>> 24) % 256, (n >>> 16) % 256, (n >>> 8) % 256, n % 256]

/-- SHA-256 message padding to a multiple of 64 bytes. -/
def sha256pad (msg : List Nat) : List Nat :=
  let len := msg.length
  let k := (119 - (len % 64)) % 64
  msg ++ (128 :: List.replicate k 0) ++ be8 (len * 8)

/-- Pack bytes into big-endian 32-bit words. -/
def bytesToWords : List Nat → List Nat
  | b0 :: b1 :: b2 :: b3 :: rest =>
      ((b0 <<< 24) ||| (b1 <<< 16) ||| (b2 <<< 8) ||| b3) :: bytesToWords rest
  | _ => []

/-- Split a word stream into 16-word blocks. -/
def wordsToBlocks : List Nat → List (List Nat)
  | w0 :: w1 :: w2 :: w3 :: w4 :: w5 :: w6 :: w7 ::
    w8 :: w9 :: w10 :: w11 :: w12 :: w13 :: w14 :: w15 :: rest =>
      [w0, w1, w2, w3, w4, w5, w6, w7, w8, w9, w10, w11, w12, w13, w14, w15]
        :: wordsToBlocks rest
  | _ => []

/-- Extend the 16-word block to the 64-word message schedule (`k` more words). -/
def extendSchedule : List Nat → Nat → List Nat
  | w, 0 => w
  | w, Nat.succ k =>
      let i := w.length
      let x := (sigmaSmall1 (w.getD (i - 2) 0) + w.getD (i - 7) 0 +
                sigmaSmall0 (w.getD (i - 15) 0) + w.getD (i - 16) 0) % w32
      extendSchedule (w ++ [x]) k

/-- One SHA-256 compression round, consuming a `(constant, schedule word)` pair. -/
def compressStep (s : Hash8) (kw : Nat × Nat) : Hash8 :=
  let t1 := (s.h + sigmaBig1 s.e + shaCh s.e s.f s.g + kw.1 + kw.2) % w32
  let t2 := (sigmaBig0 s.a + shaMaj s.a s.b s.c) % w32
  ⟨(t1 + t2) % w32, s.a, s.b, s.c, (s.d + t1) % w32, s.e, s.f, s.g⟩

/-- Process one 16-word block. -/
def processBlock (hs : Hash8) (block : List Nat) : Hash8 :=
  let w := extendSchedule block 48
  let s := (shaK.zip w).foldl compressStep hs
  ⟨(hs.a + s.a) % w32, (hs.b + s.b) % w32, (hs.c + s.c) % w32, (hs.d + s.d) % w32,
   (hs.e + s.e) % w32, (hs.f + s.f) % w32, (hs.g + s.g) % w32, (hs.h + s.h) % w32⟩

/-- Lowercase hexadecimal rendering of one 32-bit word. -/
def wordHex (n : Nat) : List Char :=
  [hexDigit ((n >>> 28) % 16), hexDigit ((n >>> 24) % 16), hexDigit ((n >>> 20) % 16),
   hexDigit ((n >>> 16) % 16), hexDigit ((n >>> 12) % 16), hexDigit ((n >>> 8) % 16),
   hexDigit ((n >>> 4) % 16), hexDigit (n % 16)]

/-- The eight hash words in output order. -/
def hash8Words (s : Hash8) : List Nat := [s.a, s.b, s.c, s.d, s.e, s.f, s.g, s.h]

/-- Hexdigest of a byte sequence. -/
def sha256hexBytes (msg : List Nat) : String :=
  let blocks := wordsToBlocks (bytesToWords (sha256pad msg))
  let hs := blocks.foldl processBlock initH
  String.mk ((hash8Words hs).flatMap wordHex)

/-- Python's `hashlib.sha256(s.encode()).hexdigest()`. -/
def sha256hex (s : String) : String := sha256hexBytes (utf8Bytes s)

/-! ## Generic association-list dictionaries and sorting -/

/-- Lookup in an insertion-ordered dict. -/
def aget {κ : Type} {α : Type} [DecidableEq κ] : List (κ × α) → κ → Option α
  | [], _ => none
  | (k', v) :: rest, k => if k' = k then some v else aget rest k

/-- Assignment in an insertion-ordered dict: in-place update or append. -/
def aset {κ : Type} {α : Type} [DecidableEq κ] : List (κ × α) → κ → α → List (κ × α)
  | [], k, v => [(k, v)]
  | (k', v') :: rest, k, v =>
      if k' = k then (k, v) :: rest else (k', v') :: aset rest k v

/-- Stable insertion for `sortLe`. -/
def insertLe {α : Type} (le : α → α → Bool) (x : α) : List α → List α
  | [] => [x]
  | y :: ys => if le y x then y :: insertLe le x ys else x :: y :: ys

/-- Stable insertion sort, modelling Python's `sorted`. -/
def sortLe {α : Type} (le : α → α → Bool) (l : List α) : List α :=
  l.foldl (fun acc x => insertLe le x acc) []

/-- Python `sorted(d.items())`: sort an association list by key. -/
def sortAssoc {α : Type} (d : List (String × α)) : List (String × α) :=
  sortLe (fun a b => strLe a.1 b.1) d

/-! ## `src/utils/manifest_utils.py` -/

/-- Source: `manifest_utils.strip_internal_fields_for_hash` — remove every
key prefixed with an underscore. -/
def strip_internal_fields_for_hash (char : Record) : Record :=
  char.filter (fun kv => !strStartsWith kv.1 "_")

/-- Accumulator of the character loop in `compute_manifest_stats`. -/
structure StatsAcc where
  editions : List (String × List String)
  edition_reminders : List (String × Nat)
  total_reminders : Nat
  total_jinxes : Nat
  total_flavor : Nat
  all_chars_for_hash : List Record
deriving Repr

/-- One iteration of the character loop in `compute_manifest_stats`. -/
def statsStep (acc : StatsAcc) (char : Record) : StatsAcc :=
  let edition := getStr char "edition"
  let acc :=
    if (aget acc.editions edition).isNone then
      { acc with
        editions := acc.editions ++ [(edition, [])],
        edition_reminders := acc.edition_reminders ++ [(edition, 0)] }
    else acc
  let acc :=
    { acc with
      editions :=
        aset acc.editions edition (((aget acc.editions edition).getD []) ++ [getStr char "id"]) }
  let char_reminders := (getArr char "reminders").length
  { acc with
    edition_reminders :=
      aset acc.edition_reminders edition
        (((aget acc.edition_reminders edition).getD 0) + char_reminders),
    total_reminders := acc.total_reminders + char_reminders,
    total_jinxes := acc.total_jinxes + (getArr char "jinxes").length,
    total_flavor := acc.total_flavor + (if truthy char "flavor" then 1 else 0),
    all_chars_for_hash := acc.all_chars_for_hash ++ [strip_internal_fields_for_hash char] }

/-- Computed manifest statistics (`compute_manifest_stats` return value). -/
structure ManifestStats where
  editions : List (String × List String)
  edition_counts : List (String × Nat)
  edition_reminders : List (String × Nat)
  total_characters : Nat
  total_reminders : Nat
  total_jinxes : Nat
  total_flavor : Nat
  content_hash : String
deriving Repr

/-- Source: `manifest_utils.compute_manifest_stats`. The `content_hash` is the
full SHA-256 hexdigest of the sorted-keys JSON dump of the list of characters
with all underscore-prefixed fields removed. -/
def compute_manifest_stats (characters : List Record) : ManifestStats :=
  let acc := characters.foldl statsStep ⟨[], [], 0, 0, 0, []⟩
  let total_jinxes := acc.total_jinxes / 2
  let editions := (sortAssoc acc.editions).map (fun kv => (kv.1, sortLe strLe kv.2))
  let edition_reminders := sortAssoc acc.edition_reminders
  let char_json := dumps (Json.arr (acc.all_chars_for_hash.map Json.obj))
  { editions := editions,
    edition_counts := editions.map (fun kv => (kv.1, kv.2.length)),
    edition_reminders := edition_reminders,
    total_characters := (editions.map (fun kv => kv.2.length)).sum,
    total_reminders := acc.total_reminders,
    total_jinxes := total_jinxes,
    total_flavor := acc.total_flavor,
    content_hash := sha256hex char_json }

/-! ## `src/scrapers/writers.py` -/

/-- Source: `writers.SCHEMA_VERSION`. -/
def SCHEMA_VERSION : Nat := 1

/-- Source: `writers.FIELD_ORDER` — canonical field order for character files. -/
def FIELD_ORDER : List String :=
  ["id", "name", "edition", "team", "firstNightReminder", "otherNightReminder",
   "reminders", "remindersGlobal", "setup", "ability", "flavor", "image",
   "firstNight", "otherNight", "jinxes", "_remindersFetched"]

/-- Source: `writers.order_character_fields`, first loop — the fields of
`FIELD_ORDER` present in the record, in that order. -/
def orderedPart (char : Record) : Record :=
  FIELD_ORDER.foldl
    (fun acc f => match rget char f with
      | some v => acc ++ [(f, v)]
      | none => acc) []

/-- Source: `writers.order_character_fields`, second loop — append the fields
not already placed by `FIELD_ORDER`. -/
def order_character_fields (char : Record) : Record :=
  orderedPart char ++ char.filter (fun kv => (rget (orderedPart char) kv.1).isNone)

/-- Source: `writers.strip_internal_fields` — drop underscore-prefixed keys,
optionally keeping `_remindersFetched` (the default). -/
def strip_internal_fields (char : Record) (preserve_reminder_flag : Bool := true) : Record :=
  char.filter (fun kv =>
    if strStartsWith kv.1 "_" then preserve_reminder_flag && kv.1 == "_remindersFetched"
    else true)

/-- Accumulator of the character loop in `writers.create_manifest` (same shape
as the `compute_manifest_stats` loop, without the hash list). -/
structure WManifestAcc where
  editions : List (String × List String)
  edition_reminders : List (String × Nat)
  total_reminders : Nat
  total_jinxes : Nat
  total_flavor : Nat
deriving Repr

/-- One iteration of the character loop in `writers.create_manifest`. -/
def wManifestStep (acc : WManifestAcc) (char : Record) : WManifestAcc :=
  let edition := getStr char "edition"
  let acc :=
    if (aget acc.editions edition).isNone then
      { acc with
        editions := acc.editions ++ [(edition, [])],
        edition_reminders := acc.edition_reminders ++ [(edition, 0)] }
    else acc
  let acc :=
    { acc with
      editions :=
        aset acc.editions edition (((aget acc.editions edition).getD []) ++ [getStr char "id"]) }
  let char_reminders := (getArr char "reminders").length
  { acc with
    edition_reminders :=
      aset acc.edition_reminders edition
        (((aget acc.edition_reminders edition).getD 0) + char_reminders),
    total_reminders := acc.total_reminders + char_reminders,
    total_jinxes := acc.total_jinxes + (getArr char "jinxes").length,
    total_flavor := acc.total_flavor + (if truthy char "flavor" then 1 else 0) }

/-- Manifest as written by `writers.create_manifest`. The `version`,
`generated` and `lastModified` timestamp fields depend on the wall clock and
are omitted; `source` is the constant `SCRIPT_TOOL_URL`. -/
structure Manifest where
  schemaVersion : Nat
  contentHash : String
  total_characters : Nat
  total_reminders : Nat
  total_jinxes : Nat
  total_flavor : Nat
  editions : List (String × List String)
  edition_counts : List (String × Nat)
  edition_reminders : List (String × Nat)
deriving Repr

/-- Source: `writers.create_manifest` (the pure manifest computation; the
function also writes `manifest.json`). Note the hash input strips internal
fields with `strip_internal_fields(char)` whose default KEEPS
`_remindersFetched`, and the stored digest is truncated to 16 hex characters
(`hexdigest()[:16]`). -/
def create_manifest (characters : List Record) : Manifest :=
  let acc := characters.foldl wManifestStep ⟨[], [], 0, 0, 0⟩
  let total_jinxes := acc.total_jinxes / 2
  let editions := (sortAssoc acc.editions).map (fun kv => (kv.1, sortLe strLe kv.2))
  let edition_reminders := sortAssoc acc.edition_reminders
  let all_chars := characters.map (fun char => strip_internal_fields char)
  let char_json := dumps (Json.arr (all_chars.map Json.obj))
  let content_hash := (sha256hex char_json).take 16
  { schemaVersion := SCHEMA_VERSION,
    contentHash := content_hash,
    total_characters := characters.length,
    total_reminders := acc.total_reminders,
    total_jinxes := total_jinxes,
    total_flavor := acc.total_flavor,
    editions := editions,
    edition_counts := editions.map (fun kv => (kv.1, kv.2.length)),
    edition_reminders := edition_reminders }

/-! ## Pretty JSON dump (`json.dump(..., indent=2, ensure_ascii=False)`) -/

/-- Indentation at nesting level `n` (two spaces per level). -/
def indentSpaces (n : Nat) : String := String.mk (List.replicate (2 * n) ' ')

mutual

/-- Pretty serialization at nesting level `ind`, Python `indent=2` style
(separators `(",", ": ")`, insertion key order, `ensure_ascii=False`). -/
def pdumpJson (ind : Nat) : Json → String
  | .null => "null"
  | .bool b => if b then "true" else "false"
  | .num n => toString n
  | .str s => dumpStr s
  | .arr [] => "[]"
  | .arr (x :: xs) =>
      "[\n" ++ pdumpList (ind + 1) (x :: xs) ++ "\n" ++ indentSpaces ind ++ "]"
  | .obj [] => "\x7b\x7d"
  | .obj (f :: fs) =>
      "\x7b\n" ++ pdumpObj (ind + 1) (f :: fs) ++ "\n" ++ indentSpaces ind ++ "\x7d"

/-- Pretty-printed array elements, one per line. -/
def pdumpList (ind : Nat) : List Json → String
  | [] => ""
  | [x] => indentSpaces ind ++ pdumpJson ind x
  | x :: xs => indentSpaces ind ++ pdumpJson ind x ++ ",\n" ++ pdumpList ind xs

/-- Pretty-printed object fields, one per line. -/
def pdumpObj (ind : Nat) : List (String × Json) → String
  | [] => ""
  | [(k, v)] => indentSpaces ind ++ dumpStr k ++ ": " ++ pdumpJson ind v
  | (k, v) :: fs =>
      indentSpaces ind ++ dumpStr k ++ ": " ++ pdumpJson ind v ++ ",\n" ++ pdumpObj ind fs

end

/-- File bytes produced by `json.dump(value, f, indent=2, ensure_ascii=False)`. -/
def dumpPretty (j : Json) : String := pdumpJson 0 j

/-! ## `writers.save_characters_by_edition` -/

/-- On-disk store of per-character JSON files, keyed by `(edition, id)` — the
path `characters/<edition>/<id>.json`. -/
abbrev Store := List ((String × String) × Record)

/-- The `if "flavor" not in char: char["flavor"] = ""` default, applied in
both the per-file loop and the combined-file loop. -/
def ensure_flavor (char : Record) : Record :=
  if (rget char "flavor").isNone then rset char "flavor" (Json.str "") else char

/-- The `if existing.get("_remindersFetched", False):` block of the per-file
loop: set the flag and copy `reminders`/`remindersGlobal` from the existing
file. -/
def merge_reminders (ex : Record) (char : Record) : Record :=
  if truthy ex "_remindersFetched" then
    let char := rset char "_remindersFetched" (Json.bool true)
    let char := rset char "reminders" ((rget ex "reminders").getD (Json.arr []))
    rset char "remindersGlobal" ((rget ex "remindersGlobal").getD (Json.arr []))
  else char

/-- The `if existing.get("flavor"):` block of the per-file loop: copy the
existing flavor when truthy. -/
def merge_flavor (ex : Record) (char : Record) : Record :=
  if truthy ex "flavor" then rset char "flavor" ((rget ex "flavor").getD Json.null) else char

/-- The read-back preservation in the per-character-file loop of
`save_characters_by_edition`: if the existing file's `_remindersFetched` is
truthy, copy its `reminders`/`remindersGlobal` and set the flag; if its
`flavor` is truthy, copy it; finally default `flavor` to `""` if absent. -/
def save_char_merge (existing : Option Record) (char : Record) : Record :=
  match existing with
  | some ex => ensure_flavor (merge_flavor ex (merge_reminders ex char))
  | none => ensure_flavor char

/-- Path `characters/<edition>/<id>.json` of a record's individual file. -/
def pathOf (char : Record) : String × String := (getStr char "edition", getStr char "id")

/-- The on-disk form of a per-character file: stripped with
`preserve_reminder_flag=True`, then canonically ordered. -/
def writeFile (char : Record) : Record :=
  order_character_fields (strip_internal_fields char true)

/-- Per-character body of the per-edition save loop: merge with the existing
file at `characters/<edition>/<id>.json`, then write the stripped
(`preserve_reminder_flag=True`), canonically ordered record back. Returns the
updated store and the mutated in-memory record. -/
def processEditionChar (store : Store) (char : Record) : Store × Record :=
  let merged := save_char_merge (aget store (pathOf char)) char
  (aset store (pathOf char) (writeFile merged), merged)

/-- Editions in first-occurrence order (the keys of `by_edition`). -/
def editionsOf (characters : List Record) : List String :=
  characters.foldl
    (fun acc char =>
      let e := getStr char "edition"
      if e ∈ acc then acc else acc ++ [e]) []

/-- Process every character of one edition (in dict-value order), leaving the
other characters untouched; threads the store through the writes. -/
def save_edition_pass (store : Store) (characters : List Record) (edition : String) :
    Store × List Record :=
  characters.foldl
    (fun (p : Store × List Record) char =>
      if getStr char "edition" = edition then
        let q := processEditionChar p.1 char
        (q.1, p.2 ++ [q.2])
      else (p.1, p.2 ++ [char]))
    (store, [])

/-- Source: `writers.save_characters_by_edition`. Mutates the in-memory
characters (preservation read-back and flavor defaulting), writes one file per
character grouped by sorted edition, and writes the combined
`all_characters.json` with ALL internal fields stripped. Returns the updated
store, the mutated in-memory character list (the caller's dict values), and
the combined-file record list. -/
def save_characters_by_edition (store : Store) (characters : List Record) :
    Store × List Record × List Record :=
  let eds := sortLe strLe (editionsOf characters)
  let p := eds.foldl
    (fun (p : Store × List Record) ed => save_edition_pass p.1 p.2 ed)
    (store, characters)
  let chars := p.2.map ensure_flavor
  let all_chars := chars.map (fun c => order_character_fields (strip_internal_fields c false))
  (p.1, chars, all_chars)

/-! ## `src/transformers/flavor_fetcher.py` -/

/-- Source: `flavor_fetcher.is_valid_flavor` — non-empty, no garbage-HTML
pattern, starts with a double quote, at least 3 characters. -/
def is_valid_flavor (flavor : String) : Bool :=
  if flavor = "" then false
  else
    let garbage_patterns := [">\n<head>", "<meta charset", "<!DOCTYPE", "<html", "<script"]
    if garbage_patterns.any (fun p => strContains flavor p) then false
    else strStartsWith flavor "\"" && 3 ≤ flavor.length

/-- Source: `flavor_fetcher.needs_flavor_update`. `previous_data` maps
character id to the record from the previous run. -/
def needs_flavor_update (character : Record) (previous_data : List (String × Record)) : Bool :=
  let char_id := getStr character "id"
  match aget previous_data char_id with
  | none => true
  | some previous =>
      let current_flavor := getStr character "flavor"
      let previous_flavor := getStr previous "flavor"
      if !is_valid_flavor current_flavor && !is_valid_flavor previous_flavor then true
      else if previous_flavor ≠ "" && !is_valid_flavor previous_flavor then true
      else if getStr character "ability" ≠ getStr previous "ability" then true
      else getStr character "name" ≠ getStr previous "name"

/-- Source: `flavor_fetcher.preserve_flavor_text` — copy the previous flavor
if it is valid; returns the (possibly mutated) record and whether it was
preserved. -/
def preserve_flavor_text (character : Record) (previous_data : List (String × Record)) :
    Record × Bool :=
  let char_id := getStr character "id"
  match aget previous_data char_id with
  | some previous =>
      let previous_flavor := getStr previous "flavor"
      if is_valid_flavor previous_flavor then
        (rset character "flavor" (Json.str previous_flavor), true)
      else (character, false)
  | none => (character, false)

/-- Per-character effect of `flavor_fetcher.update_flavor_for_characters`.
`fetchFlavor` models the wiki collaborator `fetch_flavor_from_wiki` (page
fetch plus text extraction) keyed by character name: `none` is a failed fetch
or no flavor found, `some ""` is an empty extraction — both falsy in the
`if flavor:` test. The returned `Bool` is whether the character counted as
`fetched`. -/
def update_flavor_entry (previous_data : List (String × Record))
    (fetchFlavor : String → Option String) (force : Bool) (entry : String × Record) :
    Record × Bool :=
  let char_id := entry.1
  let character := entry.2
  if !force && !needs_flavor_update character previous_data then
    ((preserve_flavor_text character previous_data).1, false)
  else
    let char_name := match rget character "name" with | some (.str s) => s | _ => char_id
    let flavor := fetchFlavor char_name
    if (match flavor with | some f => f != "" | none => false) then
      (rset character "flavor" (Json.str (flavor.getD "")), true)
    else
      let p := preserve_flavor_text character previous_data
      if p.2 then (p.1, false) else (rset p.1 "flavor" (Json.str ""), false)

/-- Source: `flavor_fetcher.update_flavor_for_characters` over the whole
character dict (keyed by id, insertion order preserved). Returns the updated
dict and the `stats["fetched"]` count. -/
def update_flavor_for_characters (characters : List (String × Record))
    (previous_data : List (String × Record)) (fetchFlavor : String → Option String)
    (force : Bool) : List (String × Record) × Nat :=
  characters.foldl
    (fun (acc : List (String × Record) × Nat) entry =>
      let r := update_flavor_entry previous_data fetchFlavor force entry
      (acc.1 ++ [(entry.1, r.1)], acc.2 + (if r.2 then 1 else 0)))
    ([], 0)

/-! ## `src/transformers/reminder_fetcher.py` -/

/-- Source: `reminder_fetcher.needs_reminder_update`. -/
def needs_reminder_update (character : Record) (previous_data : List (String × Record)) : Bool :=
  let char_id := getStr character "id"
  if char_id = "" then true
  else
    match aget previous_data char_id with
    | none => true
    | some previous =>
        if !truthy previous "_remindersFetched" then true
        else if getStr character "ability" ≠ getStr previous "ability" then true
        else getStr character "name" ≠ getStr previous "name"

/-- Source: `reminder_fetcher.preserve_reminders` — copy `reminders` and
`remindersGlobal` from the previous record and set `_remindersFetched`, but
only if the previous record's flag is truthy. -/
def preserve_reminders (character : Record) (previous_data : List (String × Record)) :
    Record × Bool :=
  let char_id := getStr character "id"
  if char_id = "" then (character, false)
  else
    match aget previous_data char_id with
    | none => (character, false)
    | some previous =>
        if truthy previous "_remindersFetched" then
          let character := rset character "reminders" ((rget previous "reminders").getD (Json.arr []))
          let character :=
            rset character "remindersGlobal" ((rget previous "remindersGlobal").getD (Json.arr []))
          (rset character "_remindersFetched" (Json.bool true), true)
        else (character, false)

/-- Per-character-file body of `reminder_fetcher.fetch_reminders_for_edition`
(incremental, async batch mode, not a dry run). `fetchPage` models the wiki
collaborator (page fetch plus `get_reminders_for_character_from_html`
extraction and `TOKEN_OVERRIDES`) keyed by character name: `none` is a failed
page fetch, in which case the source stores `results[char_id] = []`. Returns
`(char_id, results entry if any)` — `none` when the character was skipped. -/
def fetch_reminders_entry (previous_data : List (String × Record)) (incremental : Bool)
    (fetchPage : String → Option (List String)) (fileStem : String) (character : Record) :
    String × Option (List Json) :=
  let char_id := match rget character "id" with | some (.str s) => s | _ => fileStem
  let char_name := match rget character "name" with | some (.str s) => s | _ => char_id
  if incremental && !previous_data.isEmpty then
    if !needs_reminder_update character previous_data then
      let p := preserve_reminders character previous_data
      if p.2 then (char_id, some (getArr p.1 "reminders"))
      else (char_id, none)
    else
      (char_id, some (match fetchPage char_name with
        | some toks => toks.map Json.str
        | none => []))
  else
    (char_id, some (match fetchPage char_name with
      | some toks => toks.map Json.str
      | none => []))

/-- Per-file body of `reminder_fetcher.update_character_files_with_reminders`:
overwrite `reminders`, reset `remindersGlobal`, and mark `_remindersFetched`. -/
def update_record_with_reminders (character : Record) (toks : List Json) : Record :=
  let character := rset character "reminders" (Json.arr toks)
  let character := rset character "remindersGlobal" (Json.arr [])
  rset character "_remindersFetched" (Json.bool true)

/-! ## `src/scrapers/extractors.py` (`extract_jinxes`) -/

/-- One item of `.jinxes-container .jinxes .item`, after the out-of-scope DOM
and icon-URL parsing: the character ids parsed from the two icons (`""` when
`parse_character_id_from_icon` fails) and the `.jinx-text` content (`none`
when the element is missing). Items whose icon count is not exactly two are
dropped by the `len(icons) != 2` guard before this point. -/
structure JinxItem where
  char1_id : String
  char2_id : String
  jinx_text : Option String
deriving Repr, DecidableEq

/-- Jinx entry dict `{"id": ..., "reason": ...}` appended by `extract_jinxes`. -/
def jinxEntry (idv reason : String) : Json :=
  Json.obj [("id", Json.str idv), ("reason", Json.str reason)]

/-- Append to a character's `jinxes` list
(`characters[char_id]["jinxes"].append(...)`; `extract_characters` always
initializes `jinxes` to `[]`, and the empty-`jinxes` cleanup runs only later
in `clean_character_data`). -/
def jinxAppend (r : Record) (e : Json) : Record :=
  rset r "jinxes" (Json.arr (getArr r "jinxes" ++ [e]))

/-- One guarded insertion of `extract_jinxes`: append `{"id": target, ...}` to
`owner`'s jinx list if (and only if) `owner` is in the character map. -/
def addJinxEntry (characters : List (String × Record)) (owner target reason : String) :
    List (String × Record) :=
  match aget characters owner with
  | some r => aset characters owner (jinxAppend r (jinxEntry target reason))
  | none => characters

/-- One iteration of the jinx-item loop in `extract_jinxes`: each of the two
sides is added independently, guarded by membership of that id in the map. -/
def extract_jinxes_step (characters : List (String × Record)) (item : JinxItem) :
    List (String × Record) :=
  if item.char1_id = "" || item.char2_id = "" then characters
  else
    match item.jinx_text with
    | none => characters
    | some jinx_text =>
        addJinxEntry (addJinxEntry characters item.char1_id item.char2_id jinx_text)
          item.char2_id item.char1_id jinx_text

/-- Source: `extractors.extract_jinxes` — store every jinx pair
bidirectionally on the two involved characters (the returned pair count is not
modelled). -/
def extract_jinxes (characters : List (String × Record)) (items : List JinxItem) :
    List (String × Record) :=
  items.foldl extract_jinxes_step characters

/-! ## `src/utils/http_client.py` (`fetch_with_retry`) -/

/-- Outcome of one attempt of the request in `fetch_with_retry`, as decided by
the environment: a successful download, a `RequestException` carrying a
response with a status code (and optional `Retry-After` header), a
`RequestException` without a response (connection error, timeout), or the
size-limit `ValueError` (which propagates to the caller). -/
inductive FetchAttempt where
  | success (body : String)
  | failStatus (status : Nat) (retryAfter : Option Nat)
  | failNoResponse
  | tooLarge
deriving Repr, DecidableEq

/-- Result of `fetch_with_retry`: the response (or `None`, or the propagated
`ValueError`), together with how many attempts were made and how many backoff
sleeps were performed. Sleep durations are time-valued side effects and are
not modelled; only their count is. -/
inductive FetchResult where
  | ok (body : String) (attempts : Nat) (sleeps : Nat)
  | failed (attempts : Nat) (sleeps : Nat)
  | raised (attempts : Nat) (sleeps : Nat)
deriving Repr, DecidableEq

/-- The `for attempt in range(max_retries + 1)` loop of `fetch_with_retry`;
`fuel` is the number of remaining iterations and `outcomes` the environment's
outcome for each successive attempt (missing entries behave as connection
errors). A 4xx status other than 429 returns `None` at once; the last attempt
does not sleep; otherwise the attempt sleeps and retries. -/
def fetchGo (max_retries : Nat) : Nat → Nat → List FetchAttempt → Nat → FetchResult
  | 0, attempt, _, sleeps => .failed attempt sleeps
  | Nat.succ fuel, attempt, outcomes, sleeps =>
      match outcomes.headD .failNoResponse with
      | .success body => .ok body (attempt + 1) sleeps
      | .tooLarge => .raised (attempt + 1) sleeps
      | .failStatus status _ =>
          if 400 ≤ status ∧ status < 500 ∧ status ≠ 429 then .failed (attempt + 1) sleeps
          else if max_retries ≤ attempt then .failed (attempt + 1) sleeps
          else fetchGo max_retries fuel (attempt + 1) outcomes.tail (sleeps + 1)
      | .failNoResponse =>
          if max_retries ≤ attempt then .failed (attempt + 1) sleeps
          else fetchGo max_retries fuel (attempt + 1) outcomes.tail (sleeps + 1)

/-- Source: `http_client.fetch_with_retry`, as a function of the per-attempt
outcomes chosen by the environment. -/
def fetch_with_retry (max_retries : Nat) (outcomes : List FetchAttempt) : FetchResult :=
  fetchGo max_retries (max_retries + 1) 0 outcomes 0

/-! ## Full-sync pipeline (`character_scraper.main` with `--reminders --flavor`) -/

/-- Path ordering for the recursive `glob("**/*.json")` scan, modelled as
sorted by `(edition, id)` (one deterministic enumeration order). -/
def pathLe (a b : (String × String) × Record) : Bool :=
  if a.1.1 = b.1.1 then strLe a.1.2 b.1.2 else strLe a.1.1 b.1.1

/-- Source: `data_loader.load_previous_character_data` — scan every
per-character file (the combined `all_characters.json` lives outside the
`Store` and is excluded by name in the source), keyed by the record's `id`
(records without an `id` are skipped). -/
def load_previous_character_data (store : Store) : List (String × Record) :=
  (sortLe pathLe store).foldl
    (fun acc kv =>
      let char_id := getStr kv.2 "id"
      if char_id ≠ "" then aset acc char_id kv.2 else acc)
    []

/-- The `sorted(edition_dir.glob("*.json"))` file list of one edition, as
`(file stem, record)` pairs. -/
def edition_char_files (store : Store) (edition : String) : List (String × Record) :=
  sortLe (fun a b => strLe a.1 b.1)
    (store.filterMap (fun kv => if kv.1.1 = edition then some (kv.1.2, kv.2) else none))

/-- Source: `reminder_fetcher.fetch_reminders_for_edition` (incremental, async,
not a dry run): build the `results` dict mapping character id to its reminder
token list. -/
def fetch_reminders_for_edition (store : Store) (edition : String) (incremental : Bool)
    (previous_data : List (String × Record)) (fetchPage : String → Option (List String)) :
    List (String × List Json) :=
  (edition_char_files store edition).foldl
    (fun results file =>
      let r := fetch_reminders_entry previous_data incremental fetchPage file.1 file.2
      match r.2 with
      | some toks => aset results r.1 toks
      | none => results)
    []

/-- Source: `reminder_fetcher.update_character_files_with_reminders` — rewrite
every file of the edition whose stem appears in `results`. -/
def update_character_files_with_reminders (store : Store) (edition : String)
    (results : List (String × List Json)) : Store :=
  (edition_char_files store edition).foldl
    (fun st file =>
      match aget results file.1 with
      | none => st
      | some toks =>
          match aget st (edition, file.1) with
          | some character => aset st (edition, file.1) (update_record_with_reminders character toks)
          | none => st)
    store

/-- Phase 7 of `character_scraper.main`: fetch and merge reminders for every
requested edition, using the previous data loaded before the save step. -/
def reminders_phase (store : Store) (editions : List String)
    (previous_data : List (String × Record)) (fetchPage : String → Option (List String)) :
    Store :=
  editions.foldl
    (fun st ed =>
      let results := fetch_reminders_for_edition st ed true previous_data fetchPage
      if results.isEmpty then st
      else update_character_files_with_reminders st ed results)
    store

/-- Source: `flavor_fetcher.save_updated_characters` — write each character
file (ordered, unstripped) and rewrite the combined file with all internal
fields stripped. -/
def save_updated_characters (store : Store) (characters : List (String × Record)) :
    Store × List Record :=
  let store := characters.foldl
    (fun st entry =>
      let edition := match rget entry.2 "edition" with | some (.str e) => e | _ => "unknown"
      aset st (edition, entry.1) (order_character_fields entry.2))
    store
  let all_chars := characters.map (fun e => order_character_fields (strip_internal_fields e.2 false))
  (store, all_chars)

/-- On-disk state threaded through the pipeline: the per-character files, the
combined `all_characters.json`, and the manifest. -/
structure FS where
  store : Store
  combined : Option (List Record)
  manifest : Option Manifest
deriving Repr

/-- The wiki collaborators, keyed by character name, fixed across a run (and
across runs when the upstream data does not change). -/
structure Oracles where
  fetchPage : String → Option (List String)
  fetchFlavor : String → Option String

/-- Phase 8 of `character_scraper.main`: load the combined file
(`load_scraped_characters` keys it by id), refresh flavor incrementally
against the current per-character files, and save only when something was
fetched. -/
def flavor_phase (fs : FS) (fetchFlavor : String → Option String) : FS :=
  match fs.combined with
  | none => fs
  | some all_chars =>
      let char_data := all_chars.foldl (fun acc char => aset acc (getStr char "id") char) []
      let previous_data := load_previous_character_data fs.store
      let p := update_flavor_for_characters char_data previous_data fetchFlavor false
      if 0 < p.2 then
        let q := save_updated_characters fs.store p.1
        { fs with store := q.1, combined := some q.2 }
      else fs

/-- One full sync run of `character_scraper.main` with `--reminders --flavor`
(images, validation and packaging do not touch the character files): load
previous data, save the scraped characters (mutating them in memory), write
the intermediate manifest, fetch reminders, fetch flavor, and regenerate the
manifest from the per-character files. -/
def full_sync_run (fs : FS) (scraped : List Record) (editions : List String)
    (oracles : Oracles) : FS :=
  let previous_data := load_previous_character_data fs.store
  let s := save_characters_by_edition fs.store scraped
  let fs1 : FS := { store := s.1, combined := some s.2.2, manifest := some (create_manifest s.2.1) }
  let fs2 : FS := { fs1 with
    store := reminders_phase fs1.store editions previous_data oracles.fetchPage }
  let fs3 := flavor_phase fs2 oracles.fetchFlavor
  let updated := load_previous_character_data fs3.store
  if !updated.isEmpty then
    { fs3 with manifest := some (create_manifest (updated.map (fun kv => kv.2))) }
  else fs3

/-- The base sync (no optional wiki phases): save and write the manifest.
Returns the resulting file system state. -/
def base_sync_run (fs : FS) (scraped : List Record) : FS :=
  let s := save_characters_by_edition fs.store scraped
  { store := s.1, combined := some s.2.2, manifest := some (create_manifest s.2.1) }

/-! ## Basic lemmas about record and dict operations -/

theorem rget_rset_self (r : Record) (k : String) (v : Json) :
    rget (rset r k v) k = some v := by
  induction r with
  | nil => simp [rset, rget]
  | cons kv rest ih =>
      by_cases h : kv.1 = k
      · simp [rset, rget, h]
      · simp [rset, rget, h, ih]

theorem rget_rset_ne (r : Record) (k k' : String) (v : Json) (h : k' ≠ k) :
    rget (rset r k v) k' = rget r k' := by
  induction r with
  | nil => simp [rset, rget, Ne.symm h]
  | cons kv rest ih =>
      by_cases hk : kv.1 = k
      · simp [rset, rget, hk, Ne.symm h]
      · by_cases hk' : kv.1 = k'
        · simp [rset, rget, hk, hk', h]
        · simp [rset, rget, hk, hk', ih]

theorem rset_eq_of_rget (r : Record) (k : String) (v : Json) (h : rget r k = some v) :
    rset r k v = r := by
  induction r with
  | nil => simp [rget] at h
  | cons kv rest ih =>
      obtain ⟨k0, v0⟩ := kv
      by_cases hk : k0 = k
      · subst hk
        simp [rget] at h
        simp [rset, ← h]
      · simp [rget, hk] at h
        simp [rset, hk, ih h]

theorem aget_aset_self {κ α : Type} [DecidableEq κ] (d : List (κ × α)) (k : κ) (v : α) :
    aget (aset d k v) k = some v := by
  induction d with
  | nil => simp [aset, aget]
  | cons kv rest ih =>
      by_cases h : kv.1 = k
      · simp [aset, aget, h]
      · simp [aset, aget, h, ih]

theorem aget_aset_ne {κ α : Type} [DecidableEq κ] (d : List (κ × α)) (k k' : κ) (v : α)
    (h : k' ≠ k) : aget (aset d k v) k' = aget d k' := by
  induction d with
  | nil => simp [aset, aget, Ne.symm h]
  | cons kv rest ih =>
      by_cases hk : kv.1 = k
      · simp [aset, aget, hk, Ne.symm h]
      · by_cases hk' : kv.1 = k'
        · simp [aset, aget, hk, hk', h]
        · simp [aset, aget, hk, hk', ih]

/-- First-some choice on options (the shape of `rget` over `++`). -/
def oget {α : Type} : Option α → Option α → Option α
  | some v, _ => some v
  | none, b => b

theorem oget_none_right {α : Type} (a : Option α) : oget a none = a := by
  cases a <;> rfl

theorem rget_append (l1 l2 : Record) (k : String) :
    rget (l1 ++ l2) k = oget (rget l1 k) (rget l2 k) := by
  induction l1 with
  | nil => simp [rget, oget]
  | cons kv rest ih =>
      by_cases h : kv.1 = k
      · simp [rget, h, oget]
      · simp [rget, h, ih]

theorem rget_filter_key (r : Record) (q : String → Bool) (k : String) :
    rget (r.filter (fun kv => q kv.1)) k = if q k then rget r k else none := by
  induction r with
  | nil => simp [rget]
  | cons kv rest ih =>
      by_cases h : kv.1 = k
      · subst h
        by_cases hq : q kv.1
        · simp [List.filter, hq, rget, ih]
        · simp [List.filter, hq, rget, ih]
      · by_cases hq : q kv.1
        · simp [List.filter, hq, rget, h, ih]
        · simp [List.filter, hq, rget, h, ih]

theorem rget_some_mem (r : Record) (k : String) (v : Json) (h : rget r k = some v) :
    (k, v) ∈ r := by
  induction r with
  | nil => simp [rget] at h
  | cons kv rest ih =>
      obtain ⟨k0, v0⟩ := kv
      by_cases hk : k0 = k
      · subst hk
        simp [rget] at h
        subst h
        exact List.mem_cons_self _ _
      · simp [rget, hk] at h
        exact List.mem_cons_of_mem _ (ih h)

theorem oget_some {α : Type} (v : α) (b : Option α) : oget (some v) b = some v := rfl

theorem oget_none {α : Type} (b : Option α) : oget (none : Option α) b = b := rfl

theorem oget_assoc {α : Type} (a b c : Option α) :
    oget (oget a b) c = oget a (oget b c) := by
  cases a <;> rfl

theorem rget_order_foldl (char : Record) (fo : List String) (acc : Record) (k : String) :
    rget (fo.foldl (fun acc f =>
        match rget char f with
        | some v => acc ++ [(f, v)]
        | none => acc) acc) k
      = oget (rget acc k) (if k ∈ fo then rget char k else none) := by
  induction fo generalizing acc with
  | nil => simp [oget_none_right]
  | cons f rest ih =>
      simp only [List.foldl_cons]
      rw [ih]
      cases hf : rget char f with
      | none =>
          by_cases hkf : k = f
          · subst hkf
            by_cases hr : k ∈ rest <;> simp [hr, hf, oget_none_right]
          · simp [List.mem_cons, hkf]
      | some v =>
          rw [rget_append, oget_assoc]
          by_cases hkf : k = f
          · subst hkf
            have h1 : rget [(k, v)] k = some v := by simp [rget]
            rw [h1]
            by_cases hr : k ∈ rest
            · simp [hr, hf, oget_assoc, oget_some]
            · simp [hr, hf, oget_none_right]
          · have h1 : rget [(f, v)] k = none := by simp [rget, Ne.symm hkf]
            rw [h1]
            simp [List.mem_cons, hkf, oget_none]
      
theorem rget_orderedPart (char : Record) (k : String) :
    rget (orderedPart char) k = if k ∈ FIELD_ORDER then rget char k else none := by
  unfold orderedPart
  rw [rget_order_foldl]
  simp [rget, oget_none]

theorem rget_order (char : Record) (k : String) :
    rget (order_character_fields char) k = rget char k := by
  unfold order_character_fields
  rw [rget_append,
      rget_filter_key char (fun x => (rget (orderedPart char) x).isNone) k,
      rget_orderedPart]
  by_cases hm : k ∈ FIELD_ORDER
  · cases h : rget char k <;> simp [hm, h, oget]
  · cases h : rget char k <;> simp [hm, h, oget]

theorem rget_strip (char : Record) (b : Bool) (k : String) :
    rget (strip_internal_fields char b) k
      = if (if strStartsWith k "_" then b && (k == "_remindersFetched") else true)
        then rget char k else none :=
  rget_filter_key char
    (fun x => if strStartsWith x "_" then b && (x == "_remindersFetched") else true) k

/-- Looking a non-internal field (or the preserved flag) up in the record as
written to a per-character file gives the in-memory value. -/
theorem rget_write_file (c : Record) (k : String)
    (hk : strStartsWith k "_" = false ∨ k = "_remindersFetched") :
    rget (order_character_fields (strip_internal_fields c true)) k = rget c k := by
  rw [rget_order, rget_strip]
  rcases hk with h | h
  · simp [h]
  · subst h
    simp

/-! ## Claim C8 — total_jinxes is half the summed stored jinx-list lengths -/

theorem total_jinxes_statsStep (acc : StatsAcc) (c : Record) :
    (statsStep acc c).total_jinxes = acc.total_jinxes + (getArr c "jinxes").length := by
  simp only [statsStep]
  split <;> rfl

theorem total_jinxes_stats_foldl (chars : List Record) (acc : StatsAcc) :
    (chars.foldl statsStep acc).total_jinxes
      = acc.total_jinxes + (chars.map (fun c => (getArr c "jinxes").length)).sum := by
  induction chars generalizing acc with
  | nil => simp
  | cons c rest ih =>
      simp [List.foldl_cons, ih, total_jinxes_statsStep, Nat.add_assoc]

theorem total_jinxes_wStep (acc : WManifestAcc) (c : Record) :
    (wManifestStep acc c).total_jinxes = acc.total_jinxes + (getArr c "jinxes").length := by
  simp only [wManifestStep]
  split <;> rfl

theorem total_jinxes_w_foldl (chars : List Record) (acc : WManifestAcc) :
    (chars.foldl wManifestStep acc).total_jinxes
      = acc.total_jinxes + (chars.map (fun c => (getArr c "jinxes").length)).sum := by
  induction chars generalizing acc with
  | nil => simp
  | cons c rest ih =>
      simp [List.foldl_cons, ih, total_jinxes_wStep, Nat.add_assoc]

/-- C8: for every dataset, both manifest builders report `total_jinxes` equal
to the sum over all characters of the length of their stored `jinxes` lists,
divided by two with integer division. -/
theorem c8_total_jinxes_half_raw_count (characters : List Record) :
    (compute_manifest_stats characters).total_jinxes
        = (characters.map (fun c => (getArr c "jinxes").length)).sum / 2
      ∧ (create_manifest characters).total_jinxes
        = (characters.map (fun c => (getArr c "jinxes").length)).sum / 2 := by
  constructor
  · show (characters.foldl statsStep ⟨[], [], 0, 0, 0, []⟩).total_jinxes / 2 = _
    rw [total_jinxes_stats_foldl]
    simp
  · show (characters.foldl wManifestStep ⟨[], [], 0, 0, 0⟩).total_jinxes / 2 = _
    rw [total_jinxes_w_foldl]
    simp

/-! ## Claim C9 — non-429 client errors abort the retry loop at once -/

/-- C9: whenever an attempt of `fetch_with_retry` (at any point of the retry
loop, with any retry budget remaining) receives an HTTP error whose status is
in [400, 500) and not 429, the function returns `None` for that fetch after
exactly that attempt: no further attempt is consumed and no backoff sleep is
performed. In particular a first-attempt client error yields `None` after one
attempt and zero sleeps. -/
theorem c9_client_error_aborts_immediately (max_retries fuel attempt sleeps status : Nat)
    (retryAfter : Option Nat) (rest : List FetchAttempt)
    (h400 : 400 ≤ status) (h500 : status < 500) (h429 : status ≠ 429) (hfuel : 0 < fuel) :
    fetchGo max_retries fuel attempt (FetchAttempt.failStatus status retryAfter :: rest) sleeps
        = FetchResult.failed (attempt + 1) sleeps
      ∧ fetch_with_retry max_retries (FetchAttempt.failStatus status retryAfter :: rest)
        = FetchResult.failed 1 0 := by
  constructor
  · cases fuel with
    | zero => exact absurd hfuel (by simp)
    | succ n => simp [fetchGo, h400, h500, h429]
  · show fetchGo max_retries (max_retries + 1) 0 _ 0 = _
    simp [fetchGo, h400, h500, h429]

theorem c9_witness :
    fetchGo 3 4 2 (FetchAttempt.failStatus 404 none :: [FetchAttempt.success "late"]) 2
        = FetchResult.failed 3 2
      ∧ fetch_with_retry 3 (FetchAttempt.failStatus 404 none :: [FetchAttempt.success "late"])
        = FetchResult.failed 1 0 :=
  c9_client_error_aborts_immediately 3 4 2 2 404 none [FetchAttempt.success "late"]
    (by decide) (by decide) (by decide) (by decide)

/-! ## Claim C3 — staleness decisions for both auxiliary categories -/

/-- C3: for every freshly-scraped character, previous-data map and auxiliary
category, the staleness decision is as specified, per category: if the id is
absent from the previous data, both `needs_reminder_update` and
`needs_flavor_update` return true; if it is present with a truthy
`_remindersFetched` flag and identical ability text and name,
`needs_reminder_update` returns false (the stored reminders value is always
valid, so no validity hypothesis applies to this category); if it is present
with identical ability text and name and a valid previous flavor value,
`needs_flavor_update` returns false (independently of the reminders flag).
The id-nonempty hypothesis in the reminders case rules out the degenerate
`""` key, which `load_previous_character_data` never stores. -/
theorem c3_staleness_policy (character : Record) (previous_data : List (String × Record)) :
    (aget previous_data (getStr character "id") = none →
        needs_reminder_update character previous_data = true
      ∧ needs_flavor_update character previous_data = true)
  ∧ (∀ previous, aget previous_data (getStr character "id") = some previous →
      getStr character "id" ≠ "" →
      truthy previous "_remindersFetched" = true →
      getStr character "ability" = getStr previous "ability" →
      getStr character "name" = getStr previous "name" →
      needs_reminder_update character previous_data = false)
  ∧ (∀ previous, aget previous_data (getStr character "id") = some previous →
      getStr character "ability" = getStr previous "ability" →
      getStr character "name" = getStr previous "name" →
      is_valid_flavor (getStr previous "flavor") = true →
      needs_flavor_update character previous_data = false) := by
  refine ⟨fun habs => ?_, fun previous hsome hid hflag hab hnm => ?_,
    fun previous hsome hab hnm hvalid => ?_⟩
  · constructor
    · by_cases hid : getStr character "id" = "" <;>
        simp [needs_reminder_update, hid, habs]
    · simp [needs_flavor_update, habs]
  · simp [needs_reminder_update, hid, hsome, hflag, hab, hnm]
  · simp [needs_flavor_update, hsome, hvalid, hab, hnm]

def c3_char : Record :=
  [("id", Json.str "x"), ("name", Json.str "X"), ("ability", Json.str "A")]

def c3_prev : Record :=
  [("id", Json.str "x"), ("name", Json.str "X"), ("ability", Json.str "A"),
   ("flavor", Json.str "\"F.\""), ("_remindersFetched", Json.bool true)]

def c3_prev_garbage : Record :=
  [("id", Json.str "x"), ("name", Json.str "X"), ("ability", Json.str "A"),
   ("flavor", Json.str "<html>garbage"), ("_remindersFetched", Json.bool true)]

def c3_prev_noflag : Record :=
  [("id", Json.str "x"), ("name", Json.str "X"), ("ability", Json.str "A"),
   ("flavor", Json.str "\"F.\"")]

def c3_newchar : Record := [("id", Json.str "new"), ("name", Json.str "N")]

theorem c3_witness :
    (needs_reminder_update c3_newchar [("x", c3_prev)] = true
      ∧ needs_flavor_update c3_newchar [("x", c3_prev)] = true)
  ∧ needs_reminder_update c3_char [("x", c3_prev_garbage)] = false
  ∧ needs_flavor_update c3_char [("x", c3_prev_noflag)] = false :=
  ⟨(c3_staleness_policy c3_newchar [("x", c3_prev)]).1 (by decide),
   (c3_staleness_policy c3_char [("x", c3_prev_garbage)]).2.1 c3_prev_garbage
     (by decide) (by decide) (by decide) (by decide) (by decide),
   (c3_staleness_policy c3_char [("x", c3_prev_noflag)]).2.2 c3_prev_noflag
     (by decide) (by decide) (by decide) (by decide)⟩

/-! ## Claim C7 — invalid cached flavor forces refetch; failure leaves "" -/

/-- C7: when the previous record's flavor fails `is_valid_flavor` and the
current record's flavor is also invalid (a fresh scrape carries no flavor),
with name and ability unchanged: the staleness check returns true; a
successful fetch overwrites the flavor with the fetched text; a failed fetch
sets the flavor to the empty string — never the invalid previous value. -/
theorem c7_invalid_previous_flavor_refetched (character previous : Record)
    (previous_data : List (String × Record))
    (hprev : aget previous_data (getStr character "id") = some previous)
    (hinv : is_valid_flavor (getStr previous "flavor") = false)
    (hcur : is_valid_flavor (getStr character "flavor") = false) :
    needs_flavor_update character previous_data = true
  ∧ (∀ f, f ≠ "" →
      update_flavor_entry previous_data (fun _ => some f) false
          (getStr character "id", character)
        = (rset character "flavor" (Json.str f), true))
  ∧ update_flavor_entry previous_data (fun _ => none) false
        (getStr character "id", character)
      = (rset character "flavor" (Json.str ""), false) := by
  have hneed : needs_flavor_update character previous_data = true := by
    simp [needs_flavor_update, hprev, hinv, hcur]
  refine ⟨hneed, ?_, ?_⟩
  · intro f hf
    simp [update_flavor_entry, hneed, hf]
  · simp [update_flavor_entry, hneed, preserve_flavor_text, hprev, hinv]

def c7_prev : Record :=
  [("id", Json.str "x"), ("name", Json.str "X"), ("ability", Json.str "A"),
   ("flavor", Json.str "<html>garbage")]

def c7_char : Record :=
  [("id", Json.str "x"), ("name", Json.str "X"), ("ability", Json.str "A")]

theorem c7_witness :
    needs_flavor_update c7_char [("x", c7_prev)] = true
  ∧ update_flavor_entry [("x", c7_prev)] (fun _ => some "\"Die.\"") false
        (getStr c7_char "id", c7_char)
      = (rset c7_char "flavor" (Json.str "\"Die.\""), true)
  ∧ update_flavor_entry [("x", c7_prev)] (fun _ => none) false
        (getStr c7_char "id", c7_char)
      = (rset c7_char "flavor" (Json.str ""), false) :=
  have h := c7_invalid_previous_flavor_refetched c7_char c7_prev [("x", c7_prev)]
    (by decide) (by decide) (by decide)
  ⟨h.1, h.2.1 "\"Die.\"" (by decide), h.2.2⟩

/-! ## Claim C10 — the combined file holds no underscore-prefixed keys -/

theorem mem_orderedPart_foldl (char : Record) (fo : List String) (acc : Record)
    (kv : String × Json) :
    kv ∈ fo.foldl (fun acc f =>
        match rget char f with
        | some v => acc ++ [(f, v)]
        | none => acc) acc →
    kv ∈ acc ∨ rget char kv.1 = some kv.2 := by
  induction fo generalizing acc with
  | nil => intro h; exact Or.inl h
  | cons f rest ih =>
      intro h
      simp only [List.foldl_cons] at h
      rcases ih _ h with hacc | hr
      · cases hf : rget char f with
        | none => rw [hf] at hacc; exact Or.inl hacc
        | some v =>
            rw [hf] at hacc
            rcases List.mem_append.1 hacc with h1 | h2
            · exact Or.inl h1
            · simp at h2
              subst h2
              exact Or.inr hf
      · exact Or.inr hr

theorem mem_order_sub (char : Record) (kv : String × Json)
    (h : kv ∈ order_character_fields char) : kv ∈ char := by
  unfold order_character_fields at h
  rcases List.mem_append.1 h with h1 | h2
  · rcases mem_orderedPart_foldl char FIELD_ORDER [] kv h1 with h3 | h3
    · simp at h3
    · exact rget_some_mem _ _ _ h3
  · exact (List.mem_filter.1 h2).1

theorem strip_false_no_internal (c : Record) (kv : String × Json)
    (h : kv ∈ strip_internal_fields c false) : strStartsWith kv.1 "_" = false := by
  unfold strip_internal_fields at h
  have hp := (List.mem_filter.1 h).2
  by_cases hs : strStartsWith kv.1 "_"
  · simp [hs] at hp
  · simpa using hs

/-- C10: `strip_internal_fields` with `preserve_reminder_flag=False` keeps no
underscore-prefixed key, and every record the two combined-file writers
(`save_characters_by_edition` and `save_updated_characters`) put into
`all_characters.json` therefore has no underscore-prefixed key. -/
theorem c10_combined_has_no_internal_fields (store : Store) (characters : List Record)
    (updated : List (String × Record)) :
    (∀ c : Record, ∀ kv ∈ strip_internal_fields c false, strStartsWith kv.1 "_" = false)
  ∧ (∀ rec ∈ (save_characters_by_edition store characters).2.2,
      ∀ kv ∈ rec, strStartsWith kv.1 "_" = false)
  ∧ (∀ rec ∈ (save_updated_characters store updated).2,
      ∀ kv ∈ rec, strStartsWith kv.1 "_" = false) := by
  refine ⟨fun c kv h => strip_false_no_internal c kv h, ?_, ?_⟩
  · intro rec hrec kv hkv
    have := List.mem_map.1 hrec
    rcases this with ⟨c, _, hc⟩
    subst hc
    exact strip_false_no_internal _ kv (mem_order_sub _ kv hkv)
  · intro rec hrec kv hkv
    rcases List.mem_map.1 hrec with ⟨e, _, he⟩
    subst he
    exact strip_false_no_internal _ kv (mem_order_sub _ kv hkv)

def c10_char : Record :=
  [("id", Json.str "x"), ("edition", Json.str "tb"),
   ("_imageUrl", Json.str "u"), ("_remindersFetched", Json.bool true)]

theorem c10_witness :
    strStartsWith "id" "_" = false ∧ strStartsWith "flavor" "_" = false :=
  ⟨(c10_combined_has_no_internal_fields [] [] []).1 c10_char ("id", Json.str "x") (by decide),
   (c10_combined_has_no_internal_fields [] [c10_char] []).2.1
     [("id", Json.str "x"), ("edition", Json.str "tb"), ("flavor", Json.str "")]
     (by decide) ("flavor", Json.str "") (by decide)⟩

/-! ## Claim C1 — which hash inputs exclude underscore-prefixed fields -/

def c1_char : Record :=
  [("id", Json.str "imp"), ("name", Json.str "Imp"), ("edition", Json.str "tb"),
   ("ability", Json.str "A"), ("reminders", Json.arr []), ("flavor", Json.str "")]

def c1_char_flagged : Record := c1_char ++ [("_remindersFetched", Json.bool true)]

set_option maxRecDepth 400000 in
/-- C1: the two records differ only in the internal field `_remindersFetched`.
The `compute_manifest_stats` content hash is unchanged (it strips every
underscore-prefixed field), but the `create_manifest` contentHash CHANGES,
because its hash input is built with `strip_internal_fields(char)` whose
default `preserve_reminder_flag=True` keeps `_remindersFetched`. This
contradicts the claim (and the function's own comment, "to match what gets
saved": the saved combined file strips all internal fields). -/
theorem c1_writers_hash_sees_reminder_flag :
    (compute_manifest_stats [c1_char]).content_hash
        = (compute_manifest_stats [c1_char_flagged]).content_hash
      ∧ (create_manifest [c1_char]).contentHash
        ≠ (create_manifest [c1_char_flagged]).contentHash := by decide

/-! ## Claim C2 — a failed reminder fetch erases the previous reminders -/

def c2_prev_record : Record :=
  [("id", Json.str "x"), ("name", Json.str "X"), ("ability", Json.str "old ability"),
   ("reminders", Json.arr [Json.str "TOKEN"]), ("remindersGlobal", Json.arr []),
   ("flavor", Json.str "\"F.\""), ("_remindersFetched", Json.bool true),
   ("edition", Json.str "tb")]

def c2_cur_record : Record :=
  [("id", Json.str "x"), ("name", Json.str "X"), ("ability", Json.str "new ability"),
   ("reminders", Json.arr []), ("remindersGlobal", Json.arr []),
   ("flavor", Json.str "\"F.\""), ("edition", Json.str "tb")]

def c2_store : Store := [(("tb", "x"), c2_cur_record)]

def c2_previous : List (String × Record) := [("x", c2_prev_record)]

/-- The reminder pass for edition `tb` with a failing page fetch. -/
def c2_results : List (String × List Json) :=
  fetch_reminders_for_edition c2_store "tb" true c2_previous (fun _ => none)

def c2_final : Store := update_character_files_with_reminders c2_store "tb" c2_results

/-- C2: character `x` needs a reminder update (its ability changed), its
previous record holds valid reminders `["TOKEN"]` with `_remindersFetched`
true, and the page fetch fails. The pass stores `results["x"] = []` and
`update_character_files_with_reminders` then writes `reminders = []` with
`_remindersFetched = true`: the previous reminders are erased instead of
preserved, and the true flag prevents any retry on later passes. (The flavor
path, by contrast, restores the previous valid value on a failed fetch.) -/
theorem c2_failed_fetch_erases_reminders :
    needs_reminder_update c2_cur_record c2_previous = true
  ∧ c2_results = [("x", [])]
  ∧ aget c2_final ("tb", "x") = some (update_record_with_reminders c2_cur_record [])
  ∧ getArr (update_record_with_reminders c2_cur_record []) "reminders" = []
  ∧ truthy (update_record_with_reminders c2_cur_record []) "_remindersFetched" = true
  ∧ getArr c2_prev_record "reminders" = [Json.str "TOKEN"] := by decide

/-! ## Claim C4 — the two builders do not store the same digest form -/

def c4_char : Record := [("id", Json.str "x"), ("edition", Json.str "tb")]

set_option maxRecDepth 400000 in
/-- C4 counterexample: on a dataset with no internal fields at all (so the two
hash inputs coincide), the stored digests still differ — `create_manifest`
stores `hexdigest()[:16]` while `compute_manifest_stats` stores the full
64-character hexdigest. -/
theorem c4_hash_forms_differ :
    (create_manifest [c4_char]).contentHash
      ≠ (compute_manifest_stats [c4_char]).content_hash := by decide

theorem all_chars_statsStep (acc : StatsAcc) (c : Record) :
    (statsStep acc c).all_chars_for_hash
      = acc.all_chars_for_hash ++ [strip_internal_fields_for_hash c] := by
  simp only [statsStep]
  split <;> rfl

theorem all_chars_stats_foldl (chars : List Record) (acc : StatsAcc) :
    (chars.foldl statsStep acc).all_chars_for_hash
      = acc.all_chars_for_hash ++ chars.map strip_internal_fields_for_hash := by
  induction chars generalizing acc with
  | nil => simp
  | cons c rest ih =>
      simp [List.foldl_cons, ih, all_chars_statsStep]

theorem rget_none_not_mem (r : Record) (k : String) (v : Json)
    (hmem : (k, v) ∈ r) : (rget r k).isSome := by
  induction r with
  | nil => simp at hmem
  | cons kv rest ih =>
      rcases List.mem_cons.1 hmem with h | h
      · subst h
        simp [rget]
      · by_cases hk : kv.1 = k
        · simp [rget, hk]
        · simp [rget, hk]
          exact ih h

theorem strip_true_eq_for_hash (c : Record) (h : rget c "_remindersFetched" = none) :
    strip_internal_fields c true = strip_internal_fields_for_hash c := by
  unfold strip_internal_fields strip_internal_fields_for_hash
  apply List.filter_congr
  intro kv hkv
  have hne : kv.1 ≠ "_remindersFetched" := by
    intro he
    have := rget_none_not_mem c kv.1 kv.2 (by rw [← Prod.mk.eta (p := kv)]; exact hkv)
    rw [he, h] at this
    simp at this
  by_cases hs : strStartsWith kv.1 "_"
  · simp [hs, hne]
  · simp [hs]

/-- C4 as amended: `compute_manifest_stats` stores the full 64-character
hexdigest while `create_manifest` stores the first 16 characters of the digest
of its own hash input (which additionally retains `_remindersFetched`). When
no record carries a `_remindersFetched` key, the two hash inputs agree and the
writers' stored contentHash equals the 16-character truncation of the
manifest-utils content hash. -/
theorem c4_writers_hash_is_16char_truncation (characters : List Record)
    (h : ∀ c ∈ characters, rget c "_remindersFetched" = none) :
    (create_manifest characters).contentHash
      = ((compute_manifest_stats characters).content_hash).take 16 := by
  have hmap : characters.map (fun char => strip_internal_fields char)
      = characters.map strip_internal_fields_for_hash :=
    List.map_congr_left (fun c hc => strip_true_eq_for_hash c (h c hc))
  dsimp only [create_manifest, compute_manifest_stats]
  rw [all_chars_stats_foldl, hmap]
  rw [List.nil_append]

def c4_wchar : Record :=
  [("id", Json.str "y"), ("edition", Json.str "bmr"), ("reminders", Json.arr [Json.str "R"])]

theorem c4_witness :
    (create_manifest [c4_wchar]).contentHash
      = ((compute_manifest_stats [c4_wchar]).content_hash).take 16 :=
  c4_writers_hash_is_16char_truncation [c4_wchar] (by decide)

/-! ## Claim C6 — symmetry of the stored jinx cross-references -/

/-- Full symmetry as the claim states it: every stored entry has its mirror on
the target entity. -/
def jinx_symmetric (characters : List (String × Record)) : Prop :=
  ∀ a recA, aget characters a = some recA →
    ∀ b reason, jinxEntry b reason ∈ getArr recA "jinxes" →
      ∃ recB, aget characters b = some recB ∧ jinxEntry a reason ∈ getArr recB "jinxes"

/-- Symmetry restricted to targets that are present in the character map. -/
def jinx_sym_invariant (characters : List (String × Record)) : Prop :=
  ∀ a recA, aget characters a = some recA →
    ∀ b reason, jinxEntry b reason ∈ getArr recA "jinxes" →
      ∀ recB, aget characters b = some recB →
        jinxEntry a reason ∈ getArr recB "jinxes"

def c6_chars : List (String × Record) :=
  [("a", [("id", Json.str "a"), ("jinxes", Json.arr [])])]

def c6_items : List JinxItem := [⟨"a", "b", some "reason"⟩]

/-- C6 counterexample: a jinx item whose second icon resolves to an id absent
from the character map (`"b"`): `extract_jinxes` inserts the entry on `"a"`
unilaterally, and the claimed symmetry fails after the run. -/
theorem c6_unilateral_insertion :
    ¬ jinx_symmetric (extract_jinxes c6_chars c6_items) := by
  intro h
  rcases h "a" [("id", Json.str "a"), ("jinxes", Json.arr [jinxEntry "b" "reason"])]
      (by decide) "b" "reason" (by decide) with ⟨recB, hB, _⟩
  rw [show aget (extract_jinxes c6_chars c6_items) "b" = none from by decide] at hB
  exact Option.noConfusion hB

theorem getArr_jinxAppend (r : Record) (e : Json) :
    getArr (jinxAppend r e) "jinxes" = getArr r "jinxes" ++ [e] := by
  unfold jinxAppend getArr
  rw [rget_rset_self]

theorem aget_addJinxEntry (cs : List (String × Record)) (o tg rsn k : String) :
    aget (addJinxEntry cs o tg rsn) k
      = if k = o then (aget cs o).map (fun r => jinxAppend r (jinxEntry tg rsn))
        else aget cs k := by
  unfold addJinxEntry
  cases ho : aget cs o with
  | none => by_cases hk : k = o <;> simp [hk, ho]
  | some r =>
      by_cases hk : k = o
      · subst hk
        simp [aget_aset_self, ho]
      · simp [aget_aset_ne cs o k _ hk, hk]

theorem jinxEntry_inj (b r b' r' : String) (h : jinxEntry b r = jinxEntry b' r') :
    b = b' ∧ r = r' := by
  simpa [jinxEntry] using h

theorem aget_some_mem {κ α : Type} [DecidableEq κ] (d : List (κ × α)) (k : κ) (v : α)
    (h : aget d k = some v) : (k, v) ∈ d := by
  induction d with
  | nil => simp [aget] at h
  | cons kv rest ih =>
      obtain ⟨k0, v0⟩ := kv
      by_cases hk : k0 = k
      · subst hk
        simp [aget] at h
        subst h
        exact List.mem_cons_self _ _
      · simp [aget, hk] at h
        exact List.mem_cons_of_mem _ (ih h)

theorem addJinx_pair_invariant (cs : List (String × Record)) (c1 c2 t : String)
    (hInv : jinx_sym_invariant cs) :
    jinx_sym_invariant (addJinxEntry (addJinxEntry cs c1 c2 t) c2 c1 t) := by
  have key : ∀ k recK,
      aget (addJinxEntry (addJinxEntry cs c1 c2 t) c2 c1 t) k = some recK →
      ∃ recK0, aget cs k = some recK0 ∧
        getArr recK "jinxes" = getArr recK0 "jinxes"
          ++ (if k = c1 then [jinxEntry c2 t] else [])
          ++ (if k = c2 then [jinxEntry c1 t] else []) := by
    intro k recK hk
    simp only [aget_addJinxEntry] at hk
    by_cases h2 : k = c2
    · rw [if_pos h2] at hk
      by_cases h12 : c2 = c1
      · rw [if_pos h12] at hk
        rcases Option.map_eq_some'.1 hk with ⟨r1, hr1, hrec⟩
        rcases Option.map_eq_some'.1 hr1 with ⟨r0, hr0, hr01⟩
        refine ⟨r0, by rw [h2, h12]; exact hr0, ?_⟩
        rw [← hrec, ← hr01]
        simp [getArr_jinxAppend, h2, h12.symm, h2.trans h12]
      · rw [if_neg h12] at hk
        have h1 : ¬k = c1 := fun hc => h12 (h2 ▸ hc)
        rcases Option.map_eq_some'.1 hk with ⟨r0, hr0, hrec⟩
        refine ⟨r0, by rw [h2]; exact hr0, ?_⟩
        rw [← hrec]
        simp [getArr_jinxAppend, h1, h2, h12]
    · rw [if_neg h2] at hk
      by_cases h1 : k = c1
      · rw [if_pos h1] at hk
        rcases Option.map_eq_some'.1 hk with ⟨r0, hr0, hrec⟩
        refine ⟨r0, by rw [h1]; exact hr0, ?_⟩
        rw [← hrec]
        simp [getArr_jinxAppend, h1, h2]
        exact fun hc => h2 (h1.trans hc)
      · rw [if_neg h1] at hk
        exact ⟨recK, hk, by simp [h1, h2]⟩
  intro a recA hA b r hmem recB hB
  rcases key a recA hA with ⟨recA0, hA0, hAj⟩
  rcases key b recB hB with ⟨recB0, hB0, hBj⟩
  rw [hAj] at hmem
  rw [hBj]
  rcases List.mem_append.1 hmem with hmem' | hend
  · rcases List.mem_append.1 hmem' with hold | hmid
    · exact List.mem_append_left _ (List.mem_append_left _ (hInv a recA0 hA0 b r hold recB0 hB0))
    · by_cases h1 : a = c1
      · rw [if_pos h1] at hmid
        rcases List.mem_singleton.1 hmid with he
        rcases jinxEntry_inj b r c2 t he with ⟨hb, hr⟩
        subst hb
        subst hr
        subst h1
        apply List.mem_append_right
        simp
      · rw [if_neg h1] at hmid
        simp at hmid
  · by_cases h2 : a = c2
    · rw [if_pos h2] at hend
      rcases List.mem_singleton.1 hend with he
      rcases jinxEntry_inj b r c1 t he with ⟨hb, hr⟩
      subst hb
      subst hr
      subst h2
      apply List.mem_append_left
      apply List.mem_append_right
      simp
    · rw [if_neg h2] at hend
      simp at hend

theorem extract_jinxes_step_invariant (cs : List (String × Record)) (item : JinxItem)
    (hInv : jinx_sym_invariant cs) :
    jinx_sym_invariant (extract_jinxes_step cs item) := by
  unfold extract_jinxes_step
  split
  · exact hInv
  · split
    · exact hInv
    · exact addJinx_pair_invariant cs item.char1_id item.char2_id _ hInv

theorem extract_jinxes_foldl_invariant (items : List JinxItem) :
    ∀ cs : List (String × Record), jinx_sym_invariant cs →
      jinx_sym_invariant (items.foldl extract_jinxes_step cs) := by
  induction items with
  | nil => intro cs h; exact h
  | cons i rest ih =>
      intro cs h
      exact ih _ (extract_jinxes_step_invariant cs i h)

/-- C6 as amended: starting from a character map whose jinx lists are all
empty (as `extract_characters` produces), every jinx entry `{id: B, reason}`
stored on `A` by `extract_jinxes` whose target `B` is present in the map has
the mirrored entry `{id: A, reason}` on `B`; an entry whose target id is
absent from the map is inserted unilaterally (the counterexample). -/
theorem c6_symmetric_for_present_targets (characters : List (String × Record))
    (items : List JinxItem)
    (h0 : ∀ kv ∈ characters, getArr (Prod.snd kv) "jinxes" = []) :
    jinx_sym_invariant (extract_jinxes characters items) := by
  have hbase : jinx_sym_invariant characters := by
    intro a recA hA b r hmem recB hB
    rw [h0 (a, recA) (aget_some_mem characters a recA hA)] at hmem
    simp at hmem
  exact extract_jinxes_foldl_invariant items characters hbase

def c6w_chars : List (String × Record) :=
  [("a", [("id", Json.str "a"), ("jinxes", Json.arr [])]),
   ("b", [("id", Json.str "b"), ("jinxes", Json.arr [])])]

def c6w_items : List JinxItem := [⟨"a", "b", some "no duplicates"⟩]

theorem c6_witness :
    jinxEntry "a" "no duplicates"
      ∈ getArr [("id", Json.str "b"), ("jinxes", Json.arr [jinxEntry "a" "no duplicates"])] "jinxes" :=
  c6_symmetric_for_present_targets c6w_chars c6w_items
    (by decide)
    "a" [("id", Json.str "a"), ("jinxes", Json.arr [jinxEntry "b" "no duplicates"])]
    (by decide) "b" "no duplicates" (by decide)
    [("id", Json.str "b"), ("jinxes", Json.arr [jinxEntry "a" "no duplicates"])]
    (by decide)

/-! ## Claim C5 — lemmas about `save_char_merge` -/

theorem rget_ensure_flavor_self (c : Record) :
    rget (ensure_flavor c) "flavor" = some ((rget c "flavor").getD (Json.str "")) := by
  unfold ensure_flavor
  cases h : rget c "flavor" with
  | none => simp [h, rget_rset_self]
  | some v => simp [h]

theorem rget_ensure_flavor_ne (c : Record) (k : String) (hk : k ≠ "flavor") :
    rget (ensure_flavor c) k = rget c k := by
  unfold ensure_flavor
  split
  · exact rget_rset_ne c "flavor" k _ hk
  · rfl

theorem ensure_flavor_isSome (c : Record) :
    (rget (ensure_flavor c) "flavor").isSome := by
  rw [rget_ensure_flavor_self]
  rfl

theorem ensure_flavor_of_isSome (c : Record) (h : (rget c "flavor").isSome) :
    ensure_flavor c = c := by
  unfold ensure_flavor
  cases hf : rget c "flavor" with
  | none => rw [hf] at h; simp at h
  | some v => simp [hf]

theorem merge_flavor_isSome (ex : Option Record) (c : Record) :
    (rget (save_char_merge ex c) "flavor").isSome := by
  unfold save_char_merge
  cases ex <;> exact ensure_flavor_isSome _

theorem ensure_flavor_merge (ex : Option Record) (c : Record) :
    ensure_flavor (save_char_merge ex c) = save_char_merge ex c :=
  ensure_flavor_of_isSome _ (merge_flavor_isSome ex c)

theorem rget_merge_reminders_ne (ex c : Record) (k : String)
    (h1 : k ≠ "_remindersFetched") (h2 : k ≠ "reminders") (h3 : k ≠ "remindersGlobal") :
    rget (merge_reminders ex c) k = rget c k := by
  unfold merge_reminders
  split
  · rw [rget_rset_ne _ _ _ _ h3, rget_rset_ne _ _ _ _ h2, rget_rset_ne _ _ _ _ h1]
  · rfl

theorem rget_merge_flavor_ne (ex c : Record) (k : String) (h4 : k ≠ "flavor") :
    rget (merge_flavor ex c) k = rget c k := by
  unfold merge_flavor
  split
  · exact rget_rset_ne _ _ _ _ h4
  · rfl

theorem rget_merge_other (ex : Option Record) (c : Record) (k : String)
    (h1 : k ≠ "_remindersFetched") (h2 : k ≠ "reminders")
    (h3 : k ≠ "remindersGlobal") (h4 : k ≠ "flavor") :
    rget (save_char_merge ex c) k = rget c k := by
  unfold save_char_merge
  cases ex with
  | none => exact rget_ensure_flavor_ne c k h4
  | some e =>
      rw [rget_ensure_flavor_ne _ k h4, rget_merge_flavor_ne _ _ k h4,
          rget_merge_reminders_ne _ _ k h1 h2 h3]

theorem pathOf_merge (ex : Option Record) (c : Record) :
    pathOf (save_char_merge ex c) = pathOf c := by
  unfold pathOf getStr
  rw [rget_merge_other ex c "edition" (by decide) (by decide) (by decide) (by decide),
      rget_merge_other ex c "id" (by decide) (by decide) (by decide) (by decide)]

theorem truthy_getD (r : Record) (k : String) (v : Json) (h : truthy r k = true) :
    isTruthy ((rget r k).getD v) = true := by
  unfold truthy at h
  cases hr : rget r k with
  | none => rw [hr] at h; simp at h
  | some j => rw [hr] at h; simpa using h

/-- The flavor stage of the merge is reproduced by a second run that reads the
flavor value the first run left behind. `y` is the record after the first
run's flavor stage over the common base `d`. -/
theorem flavor_fix (d f y : Record)
    (hy : y = d ∨ ∃ F, y = rset d "flavor" F ∧ isTruthy F = true)
    (hf : rget f "flavor" = rget (ensure_flavor y) "flavor") :
    ensure_flavor (merge_flavor f d) = ensure_flavor y := by
  rcases hy with hy | ⟨F, hyF, hFt⟩
  · subst hy
    rw [rget_ensure_flavor_self] at hf
    have ht : truthy f "flavor" = isTruthy ((rget y "flavor").getD (Json.str "")) := by
      unfold truthy
      rw [hf]
    unfold merge_flavor
    cases hd : rget y "flavor" with
    | none =>
        rw [hd] at ht
        rw [if_neg (by rw [ht]; decide)]
    | some v =>
        rw [hd] at ht
        simp only [Option.getD_some] at ht
        by_cases hv : isTruthy v = true
        · rw [if_pos (by rw [ht]; exact hv)]
          rw [hf, hd]
          simp only [Option.getD_some]
          rw [rset_eq_of_rget y "flavor" v hd]
        · rw [if_neg (by rw [ht]; exact hv)]
  · subst hyF
    have hyf : (rget (rset d "flavor" F) "flavor").isSome := by
      rw [rget_rset_self]
      rfl
    rw [ensure_flavor_of_isSome _ hyf] at hf ⊢
    rw [rget_rset_self] at hf
    unfold merge_flavor truthy
    rw [hf]
    simp only [hFt, Option.getD_some, if_true]
    exact ensure_flavor_of_isSome _ hyf

theorem rget_writeFile (c : Record) (k : String)
    (hk : strStartsWith k "_" = false ∨ k = "_remindersFetched") :
    rget (writeFile c) k = rget c k :=
  rget_write_file c k hk

/-- Core fixpoint of the save step: merging a freshly-scraped record (which
carries no `_remindersFetched` key) against the file written by a previous
identical merge reproduces that merge exactly. -/
theorem save_char_merge_fix (ex : Option Record) (c : Record)
    (hrf : rget c "_remindersFetched" = none) :
    save_char_merge (some (writeFile (save_char_merge ex c))) c = save_char_merge ex c := by
  have hf_rF : rget (writeFile (save_char_merge ex c)) "_remindersFetched"
      = rget (save_char_merge ex c) "_remindersFetched" := rget_writeFile _ _ (Or.inr rfl)
  have hf_rem : rget (writeFile (save_char_merge ex c)) "reminders"
      = rget (save_char_merge ex c) "reminders" := rget_writeFile _ _ (Or.inl (by decide))
  have hf_rg : rget (writeFile (save_char_merge ex c)) "remindersGlobal"
      = rget (save_char_merge ex c) "remindersGlobal" := rget_writeFile _ _ (Or.inl (by decide))
  have hf_fl : rget (writeFile (save_char_merge ex c)) "flavor"
      = rget (save_char_merge ex c) "flavor" := rget_writeFile _ _ (Or.inl (by decide))
  cases ex with
  | none =>
      have hm_rF : rget (save_char_merge none c) "_remindersFetched" = none := by
        show rget (ensure_flavor c) "_remindersFetched" = none
        rw [rget_ensure_flavor_ne c _ (by decide), hrf]
      have hrem2 : merge_reminders (writeFile (save_char_merge none c)) c = c := by
        unfold merge_reminders
        rw [if_neg (by unfold truthy; rw [hf_rF, hm_rF]; simp)]
      show ensure_flavor (merge_flavor (writeFile (save_char_merge none c))
        (merge_reminders (writeFile (save_char_merge none c)) c)) = save_char_merge none c
      rw [hrem2]
      exact flavor_fix c _ c (Or.inl rfl) hf_fl
  | some e =>
      by_cases hA : truthy e "_remindersFetched" = true
      · have hc' : merge_reminders e c
            = rset (rset (rset c "_remindersFetched" (Json.bool true)) "reminders"
                ((rget e "reminders").getD (Json.arr [])))
                "remindersGlobal" ((rget e "remindersGlobal").getD (Json.arr [])) := by
          unfold merge_reminders
          rw [if_pos hA]
        have hm_rF : rget (save_char_merge (some e) c) "_remindersFetched"
            = some (Json.bool true) := by
          show rget (ensure_flavor (merge_flavor e (merge_reminders e c))) "_remindersFetched" = _
          rw [rget_ensure_flavor_ne _ _ (by decide), rget_merge_flavor_ne _ _ _ (by decide), hc',
              rget_rset_ne _ _ _ _ (by decide), rget_rset_ne _ _ _ _ (by decide), rget_rset_self]
        have hm_rem : rget (save_char_merge (some e) c) "reminders"
            = some ((rget e "reminders").getD (Json.arr [])) := by
          show rget (ensure_flavor (merge_flavor e (merge_reminders e c))) "reminders" = _
          rw [rget_ensure_flavor_ne _ _ (by decide), rget_merge_flavor_ne _ _ _ (by decide), hc',
              rget_rset_ne _ _ _ _ (by decide), rget_rset_self]
        have hm_rg : rget (save_char_merge (some e) c) "remindersGlobal"
            = some ((rget e "remindersGlobal").getD (Json.arr [])) := by
          show rget (ensure_flavor (merge_flavor e (merge_reminders e c))) "remindersGlobal" = _
          rw [rget_ensure_flavor_ne _ _ (by decide), rget_merge_flavor_ne _ _ _ (by decide), hc',
              rget_rset_self]
        have hrem2 : merge_reminders (writeFile (save_char_merge (some e) c)) c
            = merge_reminders e c := by
          unfold merge_reminders
          rw [if_pos (by unfold truthy; rw [hf_rF, hm_rF]; rfl), if_pos hA]
          rw [hf_rem, hm_rem, hf_rg, hm_rg]
          simp only [Option.getD_some]
        have hy : merge_flavor e (merge_reminders e c) = merge_reminders e c
            ∨ ∃ F, merge_flavor e (merge_reminders e c)
                = rset (merge_reminders e c) "flavor" F ∧ isTruthy F = true := by
          by_cases hB : truthy e "flavor" = true
          · exact Or.inr ⟨(rget e "flavor").getD Json.null,
              by unfold merge_flavor; rw [if_pos hB], truthy_getD e "flavor" Json.null hB⟩
          · exact Or.inl (by unfold merge_flavor; rw [if_neg hB])
        show ensure_flavor (merge_flavor (writeFile (save_char_merge (some e) c))
          (merge_reminders (writeFile (save_char_merge (some e) c)) c)) = save_char_merge (some e) c
        rw [hrem2]
        exact flavor_fix (merge_reminders e c) _ (merge_flavor e (merge_reminders e c)) hy hf_fl
      · have hc' : merge_reminders e c = c := by
          unfold merge_reminders
          rw [if_neg hA]
        have hm_rF : rget (save_char_merge (some e) c) "_remindersFetched" = none := by
          show rget (ensure_flavor (merge_flavor e (merge_reminders e c))) "_remindersFetched" = _
          rw [rget_ensure_flavor_ne _ _ (by decide), rget_merge_flavor_ne _ _ _ (by decide), hc', hrf]
        have hrem2 : merge_reminders (writeFile (save_char_merge (some e) c)) c = c := by
          unfold merge_reminders
          rw [if_neg (by unfold truthy; rw [hf_rF, hm_rF]; simp)]
        have hmc : save_char_merge (some e) c = ensure_flavor (merge_flavor e c) := by
          show ensure_flavor (merge_flavor e (merge_reminders e c)) = _
          rw [hc']
        have hy : merge_flavor e c = c
            ∨ ∃ F, merge_flavor e c = rset c "flavor" F ∧ isTruthy F = true := by
          by_cases hB : truthy e "flavor" = true
          · exact Or.inr ⟨(rget e "flavor").getD Json.null,
              by unfold merge_flavor; rw [if_pos hB], truthy_getD e "flavor" Json.null hB⟩
          · exact Or.inl (by unfold merge_flavor; rw [if_neg hB])
        show ensure_flavor (merge_flavor (writeFile (save_char_merge (some e) c))
          (merge_reminders (writeFile (save_char_merge (some e) c)) c)) = save_char_merge (some e) c
        have hffl2 : rget (writeFile (ensure_flavor (merge_flavor e c))) "flavor"
            = rget (ensure_flavor (merge_flavor e c)) "flavor" := by
          rw [← hmc]
          exact hf_fl
        rw [hrem2, hmc]
        exact flavor_fix c _ (merge_flavor e c) hy hffl2

/-- The merge of one character against a given store. -/
def mergeAgainst (store : Store) (c : Record) : Record :=
  save_char_merge (aget store (pathOf c)) c

theorem save_edition_pass_spec (ed : String) :
    ∀ (chars : List Record) (store store0 : Store) (acc : List Record),
    (∀ c ∈ chars, aget store (pathOf c) = aget store0 (pathOf c)) →
    (chars.map pathOf).Nodup →
    (chars.foldl
      (fun (p : Store × List Record) char =>
        if getStr char "edition" = ed then
          let q := processEditionChar p.1 char
          (q.1, p.2 ++ [q.2])
        else (p.1, p.2 ++ [char]))
      (store, acc))
      = (chars.foldl (fun st c => if getStr c "edition" = ed
            then aset st (pathOf c) (writeFile (mergeAgainst store0 c)) else st) store,
         acc ++ chars.map (fun c => if getStr c "edition" = ed then mergeAgainst store0 c else c)) := by
  intro chars
  induction chars with
  | nil => intro store store0 acc _ _; simp
  | cons c rest ih =>
      intro store store0 acc hpre hnd
      have hpc : aget store (pathOf c) = aget store0 (pathOf c) :=
        hpre c (List.mem_cons_self _ _)
      have hnd' : (rest.map pathOf).Nodup := by
        simp only [List.map_cons, List.nodup_cons] at hnd
        exact hnd.2
      have hpnotin : pathOf c ∉ rest.map pathOf := by
        simp only [List.map_cons, List.nodup_cons] at hnd
        exact hnd.1
      simp only [List.foldl_cons, List.map_cons]
      by_cases hm : getStr c "edition" = ed
      · rw [if_pos hm, if_pos hm]
        have hpre' : ∀ c' ∈ rest,
            aget (aset store (pathOf c) (writeFile (mergeAgainst store0 c))) (pathOf c')
              = aget store0 (pathOf c') := by
          intro c' hc'
          have hne : pathOf c' ≠ pathOf c := by
            intro he
            exact hpnotin (he ▸ List.mem_map_of_mem pathOf hc')
          rw [aget_aset_ne _ _ _ _ hne]
          exact hpre c' (List.mem_cons_of_mem _ hc')
        have hstep : processEditionChar store c
            = (aset store (pathOf c) (writeFile (mergeAgainst store0 c)), mergeAgainst store0 c) := by
          unfold processEditionChar mergeAgainst
          rw [hpc]
        rw [hstep]
        rw [ih (aset store (pathOf c) (writeFile (mergeAgainst store0 c))) store0
            (acc ++ [mergeAgainst store0 c]) hpre' hnd']
        simp
        rw [if_pos hm]
      · rw [if_neg hm, if_neg hm]
        rw [ih store store0 (acc ++ [c]) (fun c' hc' => hpre c' (List.mem_cons_of_mem _ hc')) hnd']
        simp
        rw [if_neg hm]

theorem absFold_aget_miss (ed : String) (w : Record → Record) :
    ∀ (chars : List Record) (store : Store) (k : String × String),
    (∀ c ∈ chars, getStr c "edition" = ed → pathOf c ≠ k) →
    aget (chars.foldl (fun st c =>
        if getStr c "edition" = ed then aset st (pathOf c) (w c) else st) store) k
      = aget store k := by
  intro chars
  induction chars with
  | nil => intro store k _; rfl
  | cons c rest ih =>
      intro store k hmiss
      simp only [List.foldl_cons]
      rw [ih _ k (fun c' hc' => hmiss c' (List.mem_cons_of_mem _ hc'))]
      by_cases hm : getStr c "edition" = ed
      · rw [if_pos hm, aget_aset_ne _ _ _ _ (Ne.symm (hmiss c (List.mem_cons_self _ _) hm))]
      · rw [if_neg hm]

theorem absFold_aget_hit (ed : String) (w : Record → Record) :
    ∀ (chars : List Record) (store : Store) (c0 : Record),
    c0 ∈ chars → getStr c0 "edition" = ed → (chars.map pathOf).Nodup →
    aget (chars.foldl (fun st c =>
        if getStr c "edition" = ed then aset st (pathOf c) (w c) else st) store) (pathOf c0)
      = some (w c0) := by
  intro chars
  induction chars with
  | nil => intro store c0 h; simp at h
  | cons c rest ih =>
      intro store c0 hmem hed hnd
      have hnd' : (rest.map pathOf).Nodup := by
        simp only [List.map_cons, List.nodup_cons] at hnd
        exact hnd.2
      have hpnotin : pathOf c ∉ rest.map pathOf := by
        simp only [List.map_cons, List.nodup_cons] at hnd
        exact hnd.1
      simp only [List.foldl_cons]
      rcases List.mem_cons.1 hmem with hc0 | hc0
      · subst hc0
        rw [if_pos hed]
        rw [absFold_aget_miss ed w rest _ (pathOf c0) ?_]
        · exact aget_aset_self _ _ _
        · intro c' hc' _ he
          exact hpnotin (he ▸ List.mem_map_of_mem pathOf hc')
      · exact ih _ c0 hc0 hed hnd'

theorem getStr_merge_edition (ex : Option Record) (c : Record) :
    getStr (save_char_merge ex c) "edition" = getStr c "edition" :=
  congrArg Prod.fst (pathOf_merge ex c)

theorem pathOf_ne_of_edition_ne (c' c : Record)
    (h : getStr c' "edition" ≠ getStr c "edition") : pathOf c' ≠ pathOf c :=
  fun he => h (congrArg Prod.fst he)

theorem mergeAgainst_congr (s1 s2 : Store) (c : Record)
    (h : aget s1 (pathOf c) = aget s2 (pathOf c)) : mergeAgainst s1 c = mergeAgainst s2 c := by
  unfold mergeAgainst
  rw [h]

theorem getStr_mergeAgainst (s : Store) (c : Record) :
    getStr (mergeAgainst s c) "edition" = getStr c "edition" :=
  getStr_merge_edition _ c

theorem pathOf_mergeAgainst (s : Store) (c : Record) :
    pathOf (mergeAgainst s c) = pathOf c :=
  pathOf_merge _ c

theorem save_passes_spec :
    ∀ (eds : List String) (chars : List Record) (store : Store),
    (chars.map pathOf).Nodup → eds.Nodup →
    ((eds.foldl (fun p ed => save_edition_pass p.1 p.2 ed) (store, chars)).2
        = chars.map (fun c => if getStr c "edition" ∈ eds then mergeAgainst store c else c))
    ∧ (∀ k : String × String,
        (∀ c ∈ chars, getStr c "edition" ∈ eds → pathOf c ≠ k) →
        aget (eds.foldl (fun p ed => save_edition_pass p.1 p.2 ed) (store, chars)).1 k
          = aget store k)
    ∧ (∀ c ∈ chars, getStr c "edition" ∈ eds →
        aget (eds.foldl (fun p ed => save_edition_pass p.1 p.2 ed) (store, chars)).1 (pathOf c)
          = some (writeFile (mergeAgainst store c))) := by
  intro eds
  induction eds with
  | nil =>
      intro chars store hnd _
      refine ⟨?_, fun k _ => rfl, fun c _ h => by simp at h⟩
      simp
  | cons ed rest ih =>
      intro chars store hnd hednd
      have hedrest : ed ∉ rest := (List.nodup_cons.1 hednd).1
      have hrestnd : rest.Nodup := (List.nodup_cons.1 hednd).2
      have hpass : save_edition_pass store chars ed
          = (chars.foldl (fun st c => if getStr c "edition" = ed
                then aset st (pathOf c) (writeFile (mergeAgainst store c)) else st) store,
             chars.map (fun c => if getStr c "edition" = ed then mergeAgainst store c else c)) := by
        have := save_edition_pass_spec ed chars store store [] (fun _ _ => rfl) hnd
        unfold save_edition_pass
        rw [this]
        simp
      have hfold : (ed :: rest).foldl (fun p ed => save_edition_pass p.1 p.2 ed) (store, chars)
          = rest.foldl (fun p ed => save_edition_pass p.1 p.2 ed)
              (chars.foldl (fun st c => if getStr c "edition" = ed
                  then aset st (pathOf c) (writeFile (mergeAgainst store c)) else st) store,
               chars.map (fun c => if getStr c "edition" = ed then mergeAgainst store c else c)) := by
        simp only [List.foldl_cons]
        rw [hpass]
      have hedmap : ∀ c : Record,
          getStr (if getStr c "edition" = ed then mergeAgainst store c else c) "edition"
            = getStr c "edition" := by
        intro c
        by_cases hm : getStr c "edition" = ed
        · rw [if_pos hm]
          exact getStr_mergeAgainst store c
        · rw [if_neg hm]
      have hpathmap : ∀ c : Record,
          pathOf (if getStr c "edition" = ed then mergeAgainst store c else c) = pathOf c := by
        intro c
        by_cases hm : getStr c "edition" = ed
        · rw [if_pos hm]
          exact pathOf_mergeAgainst store c
        · rw [if_neg hm]
      have hnd1 : ((chars.map (fun c => if getStr c "edition" = ed
          then mergeAgainst store c else c)).map pathOf).Nodup := by
        rw [List.map_map]
        have : (pathOf ∘ fun c => if getStr c "edition" = ed then mergeAgainst store c else c)
            = pathOf := funext hpathmap
        rw [this]
        exact hnd
      have hS1miss : ∀ k : String × String,
          (∀ c ∈ chars, getStr c "edition" = ed → pathOf c ≠ k) →
          aget (chars.foldl (fun st c => if getStr c "edition" = ed
              then aset st (pathOf c) (writeFile (mergeAgainst store c)) else st) store) k
            = aget store k :=
        fun k h => absFold_aget_miss ed _ chars store k h
      have hmergeS1 : ∀ c ∈ chars, getStr c "edition" ≠ ed →
          mergeAgainst (chars.foldl (fun st c => if getStr c "edition" = ed
              then aset st (pathOf c) (writeFile (mergeAgainst store c)) else st) store) c
            = mergeAgainst store c := by
        intro c _ hne
        exact mergeAgainst_congr _ store c (hS1miss (pathOf c) (fun c' _ hed' =>
          pathOf_ne_of_edition_ne c' c (by rw [hed']; exact fun he => hne he.symm)))
      obtain ⟨ihA, ihB, ihC⟩ := ih
        (chars.map (fun c => if getStr c "edition" = ed then mergeAgainst store c else c))
        (chars.foldl (fun st c => if getStr c "edition" = ed
            then aset st (pathOf c) (writeFile (mergeAgainst store c)) else st) store)
        hnd1 hrestnd
      refine ⟨?_, ?_, ?_⟩
      · rw [hfold, ihA, List.map_map]
        apply List.map_congr_left
        intro c hc
        simp only [Function.comp]
        by_cases hm : getStr c "edition" = ed
        · rw [if_pos hm]
          rw [if_neg (by rw [getStr_mergeAgainst, hm]; exact hedrest)]
          rw [if_pos (by rw [hm]; exact List.mem_cons_self _ _)]
        · rw [if_neg hm]
          by_cases hr : getStr c "edition" ∈ rest
          · rw [if_pos hr, if_pos (List.mem_cons_of_mem _ hr), hmergeS1 c hc hm]
          · rw [if_neg hr, if_neg (by
              intro hmem
              rcases List.mem_cons.1 hmem with h | h
              · exact hm h
              · exact hr h)]
      · intro k hk
        rw [hfold, ihB k ?_,
            hS1miss k (fun c hc hed' => hk c hc (by rw [hed']; exact List.mem_cons_self _ _))]
        intro c' hc' hed'
        rcases List.mem_map.1 hc' with ⟨c0, hc0, hc0e⟩
        subst hc0e
        rw [hpathmap c0]
        rw [hedmap c0] at hed'
        exact hk c0 hc0 (List.mem_cons_of_mem _ hed')
      · intro c hc hced
        rw [hfold]
        by_cases hm : getStr c "edition" = ed
        · rw [ihB (pathOf c) ?_]
          · exact absFold_aget_hit ed _ chars store c hc hm hnd
          · intro c' hc' hed'
            rcases List.mem_map.1 hc' with ⟨c0, hc0, hc0e⟩
            subst hc0e
            rw [hpathmap c0]
            rw [hedmap c0] at hed'
            intro he
            have hcc : c0 = c := List.inj_on_of_nodup_map hnd hc0 hc he
            subst hcc
            rw [hm] at hed'
            exact hedrest hed'
        · have hr : getStr c "edition" ∈ rest := by
            rcases List.mem_cons.1 hced with h | h
            · exact absurd h hm
            · exact h
          have hc1 : (if getStr c "edition" = ed then mergeAgainst store c else c)
              ∈ chars.map (fun c => if getStr c "edition" = ed then mergeAgainst store c else c) :=
            List.mem_map_of_mem _ hc
          rw [if_neg hm] at hc1
          have hfin := ihC c hc1 hr
          rw [hfin, hmergeS1 c hc hm]

theorem insertLe_perm {α : Type} (le : α → α → Bool) (x : α) (l : List α) :
    List.Perm (insertLe le x l) (x :: l) := by
  induction l with
  | nil => exact List.Perm.refl _
  | cons y ys ih =>
      unfold insertLe
      by_cases h : le y x
      · rw [if_pos h]
        exact (ih.cons y).trans (List.Perm.swap x y ys)
      · rw [if_neg h]

theorem sortLe_perm {α : Type} (le : α → α → Bool) (l : List α) : List.Perm (sortLe le l) l := by
  unfold sortLe
  suffices h : ∀ acc : List α, List.Perm (l.foldl (fun acc x => insertLe le x acc) acc) (acc ++ l) by
    simpa using h []
  induction l with
  | nil => intro acc; simp
  | cons x xs ih =>
      intro acc
      simp only [List.foldl_cons]
      refine (ih (insertLe le x acc)).trans ?_
      refine ((insertLe_perm le x acc).append_right xs).trans ?_
      exact List.perm_middle.symm

theorem editionsOf_fold_sub (chars : List Record) :
    ∀ acc : List String,
      acc ⊆ chars.foldl (fun acc char =>
        let e := getStr char "edition"
        if e ∈ acc then acc else acc ++ [e]) acc := by
  induction chars with
  | nil => intro acc; exact fun a h => h
  | cons c rest ih =>
      intro acc
      simp only [List.foldl_cons]
      intro a ha
      apply ih
      by_cases h : getStr c "edition" ∈ acc
      · simpa [h] using ha
      · simp only [h, if_false]
        exact List.mem_append_left _ ha

theorem mem_editionsOf_fold (chars : List Record) :
    ∀ (acc : List String) (c : Record), c ∈ chars →
      getStr c "edition" ∈ chars.foldl (fun acc char =>
        let e := getStr char "edition"
        if e ∈ acc then acc else acc ++ [e]) acc := by
  induction chars with
  | nil => intro acc c h; simp at h
  | cons c0 rest ih =>
      intro acc c hc
      simp only [List.foldl_cons]
      rcases List.mem_cons.1 hc with hh | hh
      · subst hh
        apply editionsOf_fold_sub
        by_cases h : getStr c "edition" ∈ acc
        · simp [h]
        · simp only [h, if_false]
          exact List.mem_append_right _ (List.mem_singleton.2 rfl)
      · exact ih _ c hh

theorem editionsOf_fold_nodup (chars : List Record) :
    ∀ acc : List String, acc.Nodup →
      (chars.foldl (fun acc char =>
        let e := getStr char "edition"
        if e ∈ acc then acc else acc ++ [e]) acc).Nodup := by
  induction chars with
  | nil => intro acc h; exact h
  | cons c rest ih =>
      intro acc hacc
      simp only [List.foldl_cons]
      apply ih
      by_cases h : getStr c "edition" ∈ acc
      · simp [h, hacc]
      · simp only [h, if_false]
        have : List.Perm (acc ++ [getStr c "edition"]) (getStr c "edition" :: acc) :=
          List.perm_append_singleton _ _
        rw [this.nodup_iff]
        exact List.nodup_cons.2 ⟨h, hacc⟩

theorem mem_editionsOf (chars : List Record) (c : Record) (hc : c ∈ chars) :
    getStr c "edition" ∈ editionsOf chars :=
  mem_editionsOf_fold chars [] c hc

theorem editionsOf_nodup (chars : List Record) : (editionsOf chars).Nodup :=
  editionsOf_fold_nodup chars [] List.nodup_nil

theorem ensure_flavor_mergeAgainst (s : Store) (c : Record) :
    ensure_flavor (mergeAgainst s c) = mergeAgainst s c :=
  ensure_flavor_merge _ c

theorem save_characters_spec (store : Store) (chars : List Record)
    (hnd : (chars.map pathOf).Nodup) :
    (save_characters_by_edition store chars).2.1 = chars.map (mergeAgainst store)
  ∧ ∀ c ∈ chars, aget (save_characters_by_edition store chars).1 (pathOf c)
      = some (writeFile (mergeAgainst store c)) := by
  have hcov : ∀ c ∈ chars, getStr c "edition" ∈ sortLe strLe (editionsOf chars) :=
    fun c hc => (sortLe_perm strLe (editionsOf chars)).mem_iff.2 (mem_editionsOf chars c hc)
  have hednd : (sortLe strLe (editionsOf chars)).Nodup :=
    ((sortLe_perm strLe (editionsOf chars)).nodup_iff).2 (editionsOf_nodup chars)
  obtain ⟨hA, hB, hC⟩ := save_passes_spec (sortLe strLe (editionsOf chars)) chars store hnd hednd
  constructor
  · show (((sortLe strLe (editionsOf chars)).foldl
        (fun p ed => save_edition_pass p.1 p.2 ed) (store, chars)).2.map ensure_flavor) = _
    rw [hA, List.map_map]
    apply List.map_congr_left
    intro c hc
    simp only [Function.comp]
    rw [if_pos (hcov c hc)]
    exact ensure_flavor_mergeAgainst store c
  · intro c hc
    exact hC c hc (hcov c hc)

/-- C5 as amended: the base sync (`save_characters_by_edition` followed by
`create_manifest`, without the optional wiki phases) is idempotent — a second
run over the same scraped characters (distinct file paths, no
`_remindersFetched` key on freshly scraped records) reproduces the combined
`all_characters.json` records, their serialized bytes, and the manifest
(including its contentHash) exactly. The full pipeline with the reminder and
flavor phases enabled is NOT idempotent (see the counterexample). -/
theorem c5_base_sync_idempotent (fs : FS) (chars : List Record)
    (hnd : (chars.map pathOf).Nodup)
    (hrf : ∀ c ∈ chars, rget c "_remindersFetched" = none) :
    (base_sync_run (base_sync_run fs chars) chars).combined
        = (base_sync_run fs chars).combined
  ∧ ((base_sync_run (base_sync_run fs chars) chars).combined).map
        (fun l => dumpPretty (Json.arr (l.map Json.obj)))
      = ((base_sync_run fs chars).combined).map
        (fun l => dumpPretty (Json.arr (l.map Json.obj)))
  ∧ (base_sync_run (base_sync_run fs chars) chars).manifest
        = (base_sync_run fs chars).manifest := by
  obtain ⟨hA1, hB1⟩ := save_characters_spec fs.store chars hnd
  obtain ⟨hA2, _⟩ := save_characters_spec (save_characters_by_edition fs.store chars).1 chars hnd
  have hch : (save_characters_by_edition (save_characters_by_edition fs.store chars).1 chars).2.1
      = (save_characters_by_edition fs.store chars).2.1 := by
    rw [hA1, hA2]
    apply List.map_congr_left
    intro c hc
    unfold mergeAgainst
    rw [hB1 c hc]
    exact save_char_merge_fix (aget fs.store (pathOf c)) c (hrf c hc)
  have hstore : (base_sync_run fs chars).store = (save_characters_by_edition fs.store chars).1 :=
    rfl
  have hcombined : ∀ g : FS, (base_sync_run g chars).combined
      = some (((save_characters_by_edition g.store chars).2.1).map
          (fun c => order_character_fields (strip_internal_fields c false))) := fun g => rfl
  have hman : ∀ g : FS, (base_sync_run g chars).manifest
      = some (create_manifest ((save_characters_by_edition g.store chars).2.1)) := fun g => rfl
  refine ⟨?_, ?_, ?_⟩
  · rw [hcombined, hcombined, hstore, hch]
  · rw [hcombined, hcombined, hstore, hch]
  · rw [hman, hman, hstore, hch]

def c5w_char : Record :=
  [("id", Json.str "imp"), ("name", Json.str "Imp"), ("team", Json.str "demon"),
   ("ability", Json.str "Each night choose a player."), ("edition", Json.str "tb"),
   ("image", Json.str "icons/tb/imp.png"), ("_imageUrl", Json.str "https://x/imp.png"),
   ("firstNight", Json.num 0), ("firstNightReminder", Json.str ""),
   ("otherNight", Json.num 0), ("otherNightReminder", Json.str ""),
   ("reminders", Json.arr []), ("remindersGlobal", Json.arr []), ("setup", Json.bool false)]

theorem c5_witness :
    (base_sync_run (base_sync_run ⟨[], none, none⟩ [c5w_char]) [c5w_char]).combined
        = (base_sync_run ⟨[], none, none⟩ [c5w_char]).combined
  ∧ ((base_sync_run (base_sync_run ⟨[], none, none⟩ [c5w_char]) [c5w_char]).combined).map
        (fun l => dumpPretty (Json.arr (l.map Json.obj)))
      = ((base_sync_run ⟨[], none, none⟩ [c5w_char]).combined).map
        (fun l => dumpPretty (Json.arr (l.map Json.obj)))
  ∧ (base_sync_run (base_sync_run ⟨[], none, none⟩ [c5w_char]) [c5w_char]).manifest
        = (base_sync_run ⟨[], none, none⟩ [c5w_char]).manifest :=
  c5_base_sync_idempotent ⟨[], none, none⟩ [c5w_char] (by decide) (by decide)

def c5_oracles : Oracles :=
  ⟨fun n => if n = "Imp" then some ["DEAD"] else none,
   fun n => if n = "Imp" then some "\"Die.\"" else none⟩

set_option maxRecDepth 1000000 in
/-- C5 counterexample: with the reminder and flavor phases enabled (all wiki
fetches succeeding, identical scraped input and identical oracle answers both
times), the manifest contentHash of the second full sync run differs from the
first run's. The flavor phase's `save_updated_characters` rewrites the
per-character files from the combined file, which has no `_remindersFetched`
key, so the second run re-fetches the reminders and its final manifest hashes
records with reminders and the flag that the first run's manifest lacked. -/
theorem c5_full_sync_not_idempotent :
    (full_sync_run (full_sync_run ⟨[], none, none⟩ [c5w_char] ["tb"] c5_oracles)
        [c5w_char] ["tb"] c5_oracles).manifest.map Manifest.contentHash
      ≠ (full_sync_run ⟨[], none, none⟩ [c5w_char] ["tb"] c5_oracles).manifest.map
          Manifest.contentHash := by decide

end BotcSync
